import Mathlib

/-!
Verification of the gemini-proxy repository core logic: the response
cleaner, the tolerant category/flashcard parsers, the conversation
session cache with its history-truncation policy, and the conversation
key derivation.  Definitions are shallow embeddings of the TypeScript
source in `src/`:

* `src/modules/shared/categoryUtils.ts` (`cleanResponseText`,
  `parseAndValidateCategoriesResponse`, `extractCategoriesFromText`),
* `src/modules/flashcards/service.ts` (`FlashcardsService`),
* `src/modules/anki/philosophy/base/service.ts`
  (`PhilosophyFlashcardsService`),
* `src/modules/anki/philosophy/political/service.ts`
  (`PoliticalPhilosophyFlashcardsService`).

JavaScript builtins used by that code (string trimming, `JSON.parse`,
`Array.prototype.sort`, `crypto` SHA-256) are modelled faithfully below.
-/

namespace GeminiProxy

/-! ### JavaScript string primitives

The services operate on JavaScript strings.  We model a JS string as a
Lean `String` (a sequence of Unicode scalar values) and reimplement the
String.prototype methods the source uses: `trim`, `startsWith`,
`endsWith`, `includes`, `toLowerCase`, `slice`-style prefix/suffix
removal.  The whitespace class is the JS `\s` / trim class (ASCII
whitespace, NBSP, BOM, and the Unicode space/line separators). -/

/-- The set of characters JavaScript `trim` and the regex class `\s`
treat as whitespace. -/
def jsWhitespaceChar (c : Char) : Bool :=
  c = ' ' || c = '\t' || c = '\n' || c = '\x0b' || c = '\x0c' || c = '\r' ||
  c = '\u00A0' || c = '\u1680' ||
  ('\u2000' ≤ c && c ≤ '\u200A') ||
  c = '\u2028' || c = '\u2029' || c = '\u202F' || c = '\u205F' ||
  c = '\u3000' || c = '\uFEFF'

/-- `String.prototype.trimStart` on the character list. -/
def jsTrimLeftL (cs : List Char) : List Char := cs.dropWhile jsWhitespaceChar

/-- `String.prototype.trimEnd` on the character list. -/
def jsTrimRightL (cs : List Char) : List Char :=
  (cs.reverse.dropWhile jsWhitespaceChar).reverse

/-- `String.prototype.trim` on the character list. -/
def jsTrimL (cs : List Char) : List Char := jsTrimRightL (jsTrimLeftL cs)

/-- `String.prototype.trim`. -/
def jsTrim (s : String) : String := ⟨jsTrimL s.data⟩

/-- `String.prototype.startsWith`. -/
def jsStartsWith (s pre : String) : Bool := pre.data.isPrefixOf s.data

/-- `String.prototype.endsWith`. -/
def jsEndsWith (s suf : String) : Bool := suf.data.isSuffixOf s.data

/-- `String.prototype.includes` (substring containment). -/
def jsIncludes (s sub : String) : Bool := decide (sub.data <:+: s.data)

/-- `String.prototype.toLowerCase`, character-wise (the inputs the
services compare are ASCII or caseless Hebrew, for which the JS case
mapping is exactly the per-character one). -/
def jsToLowerCase (s : String) : String := ⟨s.data.map Char.toLower⟩

/-- Remove a known prefix (the guarded `replace(/^p/, '')` step). -/
def dropPrefixChars (s : String) (n : Nat) : String := ⟨s.data.drop n⟩

/-- Remove a known suffix of length `n`. -/
def dropSuffixChars (s : String) (n : Nat) : String :=
  ⟨s.data.take (s.data.length - n)⟩

/-! ### `cleanResponseText` (src/modules/shared/categoryUtils.ts)

```ts
let cleanText = responseText.trim();
if (cleanText.startsWith('```json')) cleanText = cleanText.replace(/^```json\s*/, '');
if (cleanText.startsWith('```'))     cleanText = cleanText.replace(/^```\s*/, '');
if (cleanText.endsWith('```'))       cleanText = cleanText.replace(/\s*```$/, '');
return cleanText.trim();
```

Under the `startsWith` guard, `replace(/^```json\s*/, '')` removes the
literal prefix and then the maximal run of `\s` characters; likewise for
the other two anchored regexes. -/

def cleanResponseText (responseText : String) : String :=
  let clean0 := jsTrim responseText
  let clean1 :=
    if jsStartsWith clean0 "```json" then
      ⟨jsTrimLeftL (clean0.data.drop 7)⟩
    else clean0
  let clean2 :=
    if jsStartsWith clean1 "```" then
      ⟨jsTrimLeftL (clean1.data.drop 3)⟩
    else clean1
  let clean3 :=
    if jsEndsWith clean2 "```" then
      ⟨jsTrimRightL (clean2.data.take (clean2.data.length - 3))⟩
    else clean2
  jsTrim clean3

/-! ### `extractCategoriesFromText` (src/modules/shared/categoryUtils.ts)

```ts
const extractedCategories = categories.filter(cat =>
  text.toLowerCase().includes(cat.toLowerCase()));
return extractedCategories;
``` -/

def extractCategoriesFromText (text : String) (categories : List String) :
    List String :=
  categories.filter fun cat =>
    jsIncludes (jsToLowerCase text) (jsToLowerCase cat)

/-! ### A model of `JSON.parse`

The parsers call the JavaScript builtin `JSON.parse`.  We model JSON
values as an inductive type (numbers keep their raw lexeme: the services
only ever test numbers for truthiness) and implement the strict JSON
grammar accepted by `JSON.parse`: this is the strict ECMA-404 grammar
(no comments, no trailing commas, `\uXXXX` escapes with surrogate pairs
combined; a lone surrogate escape is rejected here because a Lean
`String` cannot represent the resulting ill-formed string). -/

inductive Json where
  | null : Json
  | bool (b : Bool) : Json
  | num (lex : String) : Json
  | str (s : String) : Json
  | arr (items : List Json) : Json
  | obj (fields : List (String × Json)) : Json

/-- JSON insignificant whitespace (space, tab, newline, carriage return). -/
def jsonWsChar (c : Char) : Bool :=
  c = ' ' || c = '\t' || c = '\n' || c = '\r'

/-- Skip JSON whitespace. -/
def jsonSkipWs (cs : List Char) : List Char := cs.dropWhile jsonWsChar

/-- Value of a hexadecimal digit. -/
def hexDigitVal (c : Char) : Option Nat :=
  if '0' ≤ c ∧ c ≤ '9' then some (c.toNat - '0'.toNat)
  else if 'a' ≤ c ∧ c ≤ 'f' then some (c.toNat - 'a'.toNat + 10)
  else if 'A' ≤ c ∧ c ≤ 'F' then some (c.toNat - 'A'.toNat + 10)
  else none

/-- Parse exactly four hex digits. -/
def parseHex4 : List Char → Option (Nat × List Char)
  | c1 :: c2 :: c3 :: c4 :: rest => do
    let v1 ← hexDigitVal c1
    let v2 ← hexDigitVal c2
    let v3 ← hexDigitVal c3
    let v4 ← hexDigitVal c4
    some (((v1 * 16 + v2) * 16 + v3) * 16 + v4, rest)
  | _ => none

/-- Parse the body of a JSON string literal (the opening quote has been
consumed); returns the decoded characters and the rest of the input. -/
def jsonParseStrAux : Nat → List Char → Option (List Char × List Char)
  | 0, _ => none
  | _, [] => none
  | fuel + 1, c :: cs =>
    if c = '"' then some ([], cs)
    else if c = '\\' then
      match cs with
      | [] => none
      | e :: cs2 =>
        if e = '"' ∨ e = '\\' ∨ e = '/' then do
          let (tail, rem) ← jsonParseStrAux fuel cs2
          some (e :: tail, rem)
        else if e = 'b' then do
          let (tail, rem) ← jsonParseStrAux fuel cs2
          some ('\x08' :: tail, rem)
        else if e = 'f' then do
          let (tail, rem) ← jsonParseStrAux fuel cs2
          some ('\x0c' :: tail, rem)
        else if e = 'n' then do
          let (tail, rem) ← jsonParseStrAux fuel cs2
          some ('\n' :: tail, rem)
        else if e = 'r' then do
          let (tail, rem) ← jsonParseStrAux fuel cs2
          some ('\r' :: tail, rem)
        else if e = 't' then do
          let (tail, rem) ← jsonParseStrAux fuel cs2
          some ('\t' :: tail, rem)
        else if e = 'u' then do
          let (n, cs3) ← parseHex4 cs2
          if h : n < 0xd800 ∨ (0xe000 ≤ n ∧ n < 0x10000) then do
            let (tail, rem) ← jsonParseStrAux fuel cs3
            some (Char.ofNatAux n (by omega) :: tail, rem)
          else
            -- surrogate escape: accept only a well-formed high+low pair
            match cs3 with
            | '\\' :: 'u' :: cs4 => do
              let (m, cs5) ← parseHex4 cs4
              if hm : 0xd800 ≤ n ∧ n < 0xdc00 ∧ 0xdc00 ≤ m ∧ m < 0xe000 then do
                let scalar := 0x10000 + (n - 0xd800) * 0x400 + (m - 0xdc00)
                let (tail, rem) ← jsonParseStrAux fuel cs5
                some (Char.ofNatAux scalar (by omega) :: tail, rem)
              else none
            | _ => none
        else none
    else if c.toNat < 0x20 then none
    else do
      let (tail, rem) ← jsonParseStrAux fuel cs
      some (c :: tail, rem)

/-- Take the maximal run of decimal digits. -/
def spanDigits (cs : List Char) : List Char × List Char :=
  (cs.takeWhile Char.isDigit, cs.dropWhile Char.isDigit)

/-- Parse a JSON number lexeme: `-? (0 | [1-9][0-9]*) (.[0-9]+)? ([eE][+-]?[0-9]+)?`. -/
def jsonParseNumber (cs : List Char) : Option (String × List Char) :=
  let (sign, cs1) :=
    match cs with
    | '-' :: rest => (['-'], rest)
    | _ => (([] : List Char), cs)
  match cs1 with
  | [] => none
  | d :: _ =>
    if ¬ d.isDigit then none
    else
      let (intPart, cs2) :=
        if d = '0' then ([d], cs1.drop 1) else spanDigits cs1
      let (fracPart, cs3) :=
        match cs2 with
        | '.' :: rest =>
          let (ds, rest2) := spanDigits rest
          if ds = [] then ([], cs2) else ('.' :: ds, rest2)
        | _ => (([] : List Char), cs2)
      -- a '.' not followed by a digit is a syntax error in JSON.parse
      if fracPart = [] ∧ cs2.head? = some '.' then none
      else
        let (expPart, cs4) :=
          match cs3 with
          | e :: rest =>
            if e = 'e' ∨ e = 'E' then
              let (esign, rest2) :=
                match rest with
                | s :: r2 => if s = '+' ∨ s = '-' then ([s], r2) else ([], rest)
                | [] => (([] : List Char), rest)
              let (ds, rest3) := spanDigits rest2
              if ds = [] then ([], cs3) else (e :: (esign ++ ds), rest3)
            else ([], cs3)
          | [] => (([] : List Char), cs3)
        if expPart = [] ∧ (cs3.head? = some 'e' ∨ cs3.head? = some 'E') then none
        else some (⟨sign ++ intPart ++ fracPart ++ expPart⟩, cs4)

mutual

/-- Parse one JSON value starting at `cs` (leading whitespace allowed). -/
def jsonParseValue : Nat → List Char → Option (Json × List Char)
  | 0, _ => none
  | fuel + 1, cs =>
    match jsonSkipWs cs with
    | [] => none
    | c :: rest =>
      if c = '{' then
        match jsonSkipWs rest with
        | '}' :: rest2 => some (Json.obj [], rest2)
        | rest2 => jsonParseMembers fuel rest2 []
      else if c = '[' then
        match jsonSkipWs rest with
        | ']' :: rest2 => some (Json.arr [], rest2)
        | rest2 => jsonParseItems fuel rest2 []
      else if c = '"' then do
        let (chars, rem) ← jsonParseStrAux (rest.length + 1) rest
        some (Json.str ⟨chars⟩, rem)
      else if c = 't' then
        match rest with
        | 'r' :: 'u' :: 'e' :: rest2 => some (Json.bool true, rest2)
        | _ => none
      else if c = 'f' then
        match rest with
        | 'a' :: 'l' :: 's' :: 'e' :: rest2 => some (Json.bool false, rest2)
        | _ => none
      else if c = 'n' then
        match rest with
        | 'u' :: 'l' :: 'l' :: rest2 => some (Json.null, rest2)
        | _ => none
      else do
        let (lex, rem) ← jsonParseNumber (c :: rest)
        some (Json.num lex, rem)

/-- Parse the members of an object after `{` (first key expected at `cs`). -/
def jsonParseMembers : Nat → List Char → List (String × Json) →
    Option (Json × List Char)
  | 0, _, _ => none
  | fuel + 1, cs, acc =>
    match jsonSkipWs cs with
    | '"' :: rest => do
      let (keyChars, afterKey) ← jsonParseStrAux (rest.length + 1) rest
      match jsonSkipWs afterKey with
      | ':' :: afterColon => do
        let (v, afterVal) ← jsonParseValue fuel afterColon
        match jsonSkipWs afterVal with
        | ',' :: rest2 => jsonParseMembers fuel rest2 (acc ++ [(⟨keyChars⟩, v)])
        | '}' :: rest2 => some (Json.obj (acc ++ [(⟨keyChars⟩, v)]), rest2)
        | _ => none
      | _ => none
    | _ => none

/-- Parse the items of an array after `[` (first item expected at `cs`). -/
def jsonParseItems : Nat → List Char → List Json → Option (Json × List Char)
  | 0, _, _ => none
  | fuel + 1, cs, acc => do
    let (v, afterVal) ← jsonParseValue fuel cs
    match jsonSkipWs afterVal with
    | ',' :: rest2 => jsonParseItems fuel rest2 (acc ++ [v])
    | ']' :: rest2 => some (Json.arr (acc ++ [v]), rest2)
    | _ => none

end

/-- The model of `JSON.parse`: parse one value, require only whitespace
after it; `none` models a thrown `SyntaxError`. -/
def jsonParse (s : String) : Option Json :=
  match jsonParseValue (2 * s.data.length + 4) s.data with
  | some (v, rest) => if jsonSkipWs rest = [] then some v else none
  | none => none

/-- Property access `o.name` for a parsed JSON object: the last
occurrence of a duplicated key wins (as in `JSON.parse`); access on any
non-object JSON value yields `undefined` (`none`). -/
def jsGetField (j : Json) (name : String) : Option Json :=
  match j with
  | Json.obj fields => (fields.reverse.lookup name)
  | _ => none

/-! ### `parseAndValidateCategoriesResponse` (src/modules/shared/categoryUtils.ts)

```ts
try {
  const cleanText = cleanResponseText(responseText);
  const parsed = JSON.parse(cleanText);
  if (parsed && typeof parsed === 'object' && Array.isArray(parsed.categories)) {
    return parsed.categories.filter(cat =>
      typeof cat === 'string' && categories.includes(cat.trim()));
  } else if (Array.isArray(parsed)) {
    return parsed.filter(cat =>
      typeof cat === 'string' && categories.includes(cat.trim()));
  } else { throw new Error('Response is not in expected format'); }
} catch (parseError) {
  return extractCategoriesFromText(responseText, categories);
}
```

The first branch fires exactly when the parse result is a non-array
object with an array-valued `categories` property (`parsed.categories`
is `undefined` on an array, and `null` fails the truthiness test); the
filter keeps the string elements whose trimmed value is in the
vocabulary but returns them untrimmed. -/

/-- The element filter shared by both accepted response shapes: keep the
string elements whose trimmed value is a vocabulary member; the kept
element itself is not trimmed. -/
def filterValidCategories (elems : List Json) (categories : List String) :
    List String :=
  elems.filterMap fun cat =>
    match cat with
    | Json.str s => if categories.contains (jsTrim s) then some s else none
    | _ => none

def parseAndValidateCategoriesResponse (responseText : String)
    (categories : List String) : List String :=
  match jsonParse (cleanResponseText responseText) with
  | none => extractCategoriesFromText responseText categories
  | some parsed =>
    match parsed with
    | Json.obj _ =>
      match jsGetField parsed "categories" with
      | some (Json.arr cats) => filterValidCategories cats categories
      | _ => extractCategoriesFromText responseText categories
    | Json.arr elems => filterValidCategories elems categories
    | _ => extractCategoriesFromText responseText categories

/-! ### Flashcard parsing

`Flashcard` is the shape produced by all three flashcard parsers
(`src/modules/flashcards/service.ts`, `anki/philosophy/base/service.ts`,
`anki/philosophy/political/service.ts`). -/

structure Flashcard where
  type : String
  front : String
  back : String
  context_logic : Option String
  tags : Option (List String)
deriving DecidableEq

/-- `typeof x === 'string'` for an optional property value. -/
def fieldIsString (f : Option Json) : Bool :=
  match f with
  | some (Json.str _) => true
  | _ => false

/-- The string stored in a property known to be a string (the parsers
read it only after the filter has established `typeof === 'string'`). -/
def getStrField (card : Json) (name : String) : String :=
  match jsGetField card name with
  | some (Json.str s) => s
  | _ => ""

/-- `card && typeof card.type === 'string' && typeof card.front ===
'string' && typeof card.back === 'string'` — property access on a
truthy primitive or an array yields `undefined`, so only objects pass. -/
def hasBasicStructure (card : Json) : Bool :=
  match card with
  | Json.obj _ =>
    fieldIsString (jsGetField card "type") &&
    fieldIsString (jsGetField card "front") &&
    fieldIsString (jsGetField card "back")
  | _ => false

/-- Filter of `FlashcardsService.parseFlashcardsResponse`: basic
structure, and membership in `cardTypes` when that list is supplied and
non-empty. -/
def cardFilterGeneric (cardTypes : Option (List String)) (card : Json) :
    Bool :=
  match cardTypes with
  | some l =>
    if hasBasicStructure card ∧ l ≠ [] then l.contains (getStrField card "type")
    else hasBasicStructure card
  | none => hasBasicStructure card

/-- `Array.isArray(card.tags) ? card.tags.filter(t => typeof t ===
'string') : undefined`. -/
def tagsField (card : Json) : Option (List String) :=
  match jsGetField card "tags" with
  | some (Json.arr l) =>
    some (l.filterMap fun t => match t with | Json.str s => some s | _ => none)
  | _ => none

/-- The record built by the generic/base mapping step for a card whose
`context_logic` evaluated to `cl`. -/
def mkGenericCard (card : Json) (cl : Option String) : Flashcard :=
  { type := getStrField card "type",
    front := jsTrim (getStrField card "front"),
    back := jsTrim (getStrField card "back"),
    context_logic := cl,
    tags := tagsField card }

/-- The mapping step of the generic and base parsers.  `context_logic`
is read with optional chaining (`card.context_logic?.trim()`): absent,
`undefined` or `null` give `undefined`; a string is trimmed; any other
value makes `.trim()` throw a `TypeError`, which the enclosing `try`
turns into the parser's catch branch (`Except.error`). -/
def mapCardGeneric (card : Json) : Except Unit Flashcard :=
  match jsGetField card "context_logic" with
  | none => Except.ok (mkGenericCard card none)
  | some Json.null => Except.ok (mkGenericCard card none)
  | some (Json.str s) => Except.ok (mkGenericCard card (some (jsTrim s)))
  | some _ => Except.error ()

/-- `.map(...)` over the filtered cards, with a thrown `TypeError`
aborting the whole map (left to right, as in JS). -/
def mapCardsGeneric : List Json → Except Unit (List Flashcard)
  | [] => Except.ok []
  | c :: rest =>
    match mapCardGeneric c, mapCardsGeneric rest with
    | Except.ok fc, Except.ok fcs => Except.ok (fc :: fcs)
    | Except.error e, _ => Except.error e
    | Except.ok _, Except.error e => Except.error e

/-- Shared body of the generic/base parsers: clean, `JSON.parse`
(failure throws), require a truthy array `flashcards` property
(`parsed.flashcards` throws on `null`, is `undefined` on any other
non-object), filter, then map (which may throw). -/
def flashcardsBody (responseText : String) (filter : Json → Bool) :
    Except Unit (List Flashcard) :=
  match jsonParse (cleanResponseText responseText) with
  | none => Except.error ()
  | some Json.null => Except.error ()
  | some parsed =>
    match jsGetField parsed "flashcards" with
    | some (Json.arr cards) => mapCardsGeneric (cards.filter filter)
    | _ => Except.error ()

/-- The fallback card returned by `FlashcardsService` when parsing
succeeded but zero cards survived the filter. -/
def fallbackNoValidCards : Flashcard :=
  { type := "Error",
    front := "Could not process the content",
    back := "The AI response did not contain valid flashcards. Please try again or adjust your system instruction.",
    context_logic := some "Ensure the content has enough substance to analyze and that the system instruction requests valid JSON output.",
    tags := some ["Error"] }

/-- The fallback card returned by `FlashcardsService` when parsing threw. -/
def fallbackParseErrorCard : Flashcard :=
  { type := "Error",
    front := "Failed to process AI response",
    back := "Could not parse the response. Please try again.",
    context_logic := some "There was an error processing the response from the AI.",
    tags := some ["Error"] }

/-- `FlashcardsService.parseFlashcardsResponse`
(src/modules/flashcards/service.ts): catch branch and zero-valid branch
each return a single synthetic card of type `"Error"`. -/
def parseFlashcardsResponseGeneric (responseText : String)
    (cardTypes : Option (List String)) : List Flashcard :=
  match flashcardsBody responseText (cardFilterGeneric cardTypes) with
  | Except.error _ => [fallbackParseErrorCard]
  | Except.ok [] => [fallbackNoValidCards]
  | Except.ok cards => cards

/-- `PhilosophyFlashcardsService.parseFlashcardsResponse`
(src/modules/anki/philosophy/base/service.ts): same filter as the
generic parser but without a card-type vocabulary, and both the
zero-valid branch and the catch branch return the EMPTY list. -/
def parseFlashcardsResponseBase (responseText : String) : List Flashcard :=
  match flashcardsBody responseText hasBasicStructure with
  | Except.error _ => []
  | Except.ok cards => cards

/-! ### Political philosophy parser
(src/modules/anki/philosophy/political/service.ts) -/

/-- Request input of the philosophy flashcard services
(`GenerateFlashcardsInput` of anki/philosophy/base/service.ts). -/
structure PhilInput where
  paragraph : String
  thinker : String
  work : String
  chapter : Option String

/-- The closed card-type vocabulary of the specialized philosophy
endpoints. -/
def politicalCardTypes : List String :=
  ["Concept", "Argument", "Context", "Contrast"]

/-- Strict filter of the political parser: string `type` that is a
member of the closed vocabulary, string `front`, `back` and
`context_logic`. -/
def cardFilterPolitical (card : Json) : Bool :=
  match card with
  | Json.obj _ =>
    fieldIsString (jsGetField card "type") &&
    politicalCardTypes.contains (getStrField card "type") &&
    fieldIsString (jsGetField card "front") &&
    fieldIsString (jsGetField card "back") &&
    fieldIsString (jsGetField card "context_logic")
  | _ => false

/-- Mapping step of the political parser; `context_logic` is known to be
a string, and missing tags are defaulted to
`[card.type, input.thinker, input.work, ...(input.chapter ?)]`. -/
def mapCardPolitical (input : PhilInput) (card : Json) : Flashcard :=
  { type := getStrField card "type",
    front := jsTrim (getStrField card "front"),
    back := jsTrim (getStrField card "back"),
    context_logic := some (jsTrim (getStrField card "context_logic")),
    tags :=
      match jsGetField card "tags" with
      | some (Json.arr l) =>
        some (l.filterMap fun t =>
          match t with | Json.str s => some s | _ => none)
      | _ =>
        some ([getStrField card "type", input.thinker, input.work] ++
          (match input.chapter with | some c => [c] | none => [])) }

/-- Fallback card of the political parser when zero cards survive the
strict filter. -/
def politicalFallbackNoValid (input : PhilInput) : Flashcard :=
  { type := "Concept",
    front := "מהו הרעיון המרכזי בקטע זה של " ++ input.thinker ++ "?",
    back := "לא ניתן היה לעבד את הפסקה. אנא נסה שוב או הזן פסקה ארוכה יותר.",
    context_logic := some "יש לוודא שהפסקה מכילה תוכן פילוסופי מספיק לניתוח.",
    tags := some ["Error", input.thinker, input.work] }

/-- Fallback card of the political parser when parsing threw. -/
def politicalFallbackParseError (input : PhilInput) : Flashcard :=
  { type := "Concept",
    front := "מהו הרעיון המרכזי בקטע זה של " ++ input.thinker ++ "?",
    back := "לא ניתן היה לעבד את התשובה מהמערכת. אנא נסה שוב.",
    context_logic := some "אירעה שגיאה בעיבוד התשובה.",
    tags := some ["Error", input.thinker, input.work] }

/-- `PoliticalPhilosophyFlashcardsService.parseFlashcardsResponse`:
strict filter, total map (its `context_logic.trim()` cannot throw
because the filter guarantees a string), and one-card fallbacks of type
`"Concept"` for both the zero-valid and the catch branch. -/
def parseFlashcardsResponsePolitical (responseText : String)
    (input : PhilInput) : List Flashcard :=
  match jsonParse (cleanResponseText responseText) with
  | none => [politicalFallbackParseError input]
  | some Json.null => [politicalFallbackParseError input]
  | some parsed =>
    match jsGetField parsed "flashcards" with
    | some (Json.arr cards) =>
      match (cards.filter cardFilterPolitical).map (mapCardPolitical input)
      with
      | [] => [politicalFallbackNoValid input]
      | valid => valid
    | _ => [politicalFallbackParseError input]

/-- The situations in which `parseAndValidateCategoriesResponse` takes
its fallback branch: the cleaned text fails JSON parsing, or parses to
a value that is neither an array nor an object carrying an array-valued
`categories` property. -/
def categoriesFallsBack (t : String) : Bool :=
  match jsonParse (cleanResponseText t) with
  | none => true
  | some (Json.arr _) => false
  | some (Json.obj fields) =>
    match jsGetField (Json.obj fields) "categories" with
    | some (Json.arr _) => false
    | _ => true
  | some _ => true

/-- The situations in which the flashcard parsers reach their catch
branch before filtering: the cleaned text fails JSON parsing, or the
parse result is `null` (property access throws) or lacks an array
`flashcards` property. -/
def flashcardsThrows (t : String) : Bool :=
  match jsonParse (cleanResponseText t) with
  | none => true
  | some Json.null => true
  | some p =>
    match jsGetField p "flashcards" with
    | some (Json.arr _) => false
    | _ => true

/-! ### SHA-256 (model of node's `crypto.createHash('sha256')`)

`FlashcardsService.generateConversationKey` derives the conversation key
as the first 16 hex characters of the SHA-256 digest of a combined
string.  FIPS 180-4 SHA-256 over the UTF-8 bytes of the string,
implemented on `Nat` with arithmetic modulo `2^32`. -/

/-- UTF-8 encoding of one scalar value (as byte values). -/
def utf8EncodeChar (c : Char) : List Nat :=
  let n := c.toNat
  if n < 0x80 then [n]
  else if n < 0x800 then
    [0xc0 ||| (n >>> 6), 0x80 ||| (n &&& 0x3f)]
  else if n < 0x10000 then
    [0xe0 ||| (n >>> 12), 0x80 ||| ((n >>> 6) &&& 0x3f), 0x80 ||| (n &&& 0x3f)]
  else
    [0xf0 ||| (n >>> 18), 0x80 ||| ((n >>> 12) &&& 0x3f),
     0x80 ||| ((n >>> 6) &&& 0x3f), 0x80 ||| (n &&& 0x3f)]

/-- UTF-8 encoding of a string. -/
def utf8Encode (s : String) : List Nat := (s.data.map utf8EncodeChar).flatten

/-- Truncated addition modulo `2^32`. -/
def add32 (a b : Nat) : Nat := (a + b) % 4294967296

/-- Right rotation of a 32-bit word. -/
def rotr32 (n x : Nat) : Nat := ((x >>> n) ||| (x <<< (32 - n))) % 4294967296

/-- Bitwise complement within 32 bits. -/
def not32 (x : Nat) : Nat := x ^^^ 4294967295

def sha256Ch (x y z : Nat) : Nat := (x &&& y) ^^^ (not32 x &&& z)

def sha256Maj (x y z : Nat) : Nat := (x &&& y) ^^^ (x &&& z) ^^^ (y &&& z)

def sha256S0 (x : Nat) : Nat := rotr32 2 x ^^^ rotr32 13 x ^^^ rotr32 22 x

def sha256S1 (x : Nat) : Nat := rotr32 6 x ^^^ rotr32 11 x ^^^ rotr32 25 x

def sha256s0 (x : Nat) : Nat := rotr32 7 x ^^^ rotr32 18 x ^^^ (x >>> 3)

def sha256s1 (x : Nat) : Nat := rotr32 17 x ^^^ rotr32 19 x ^^^ (x >>> 10)

/-- The 64 SHA-256 round constants. -/
def sha256K : List Nat :=
  [1116352408, 1899447441, 3049323471, 3921009573,
   961987163, 1508970993, 2453635748, 2870763221,
   3624381080, 310598401, 607225278, 1426881987,
   1925078388, 2162078206, 2614888103, 3248222580,
   3835390401, 4022224774, 264347078, 604807628,
   770255983, 1249150122, 1555081692, 1996064986,
   2554220882, 2821834349, 2952996808, 3210313671,
   3336571891, 3584528711, 113926993, 338241895,
   666307205, 773529912, 1294757372, 1396182291,
   1695183700, 1986661051, 2177026350, 2456956037,
   2730485921, 2820302411, 3259730800, 3345764771,
   3516065817, 3600352804, 4094571909, 275423344,
   430227734, 506948616, 659060556, 883997877,
   958139571, 1322822218, 1537002063, 1747873779,
   1955562222, 2024104815, 2227730452, 2361852424,
   2428436474, 2756734187, 3204031479, 3329325298]

/-- The SHA-256 initial hash value. -/
def sha256H0 : List Nat :=
  [1779033703, 3144134277, 1013904242, 2773480762,
   1359893119, 2600822924, 528734635, 1541459225]

/-- Big-endian 64-bit byte decomposition (for the length field). -/
def be64 (n : Nat) : List Nat :=
  [(n >>> 56) &&& 255, (n >>> 48) &&& 255, (n >>> 40) &&& 255,
   (n >>> 32) &&& 255, (n >>> 24) &&& 255, (n >>> 16) &&& 255,
   (n >>> 8) &&& 255, n &&& 255]

/-- Message padding: append `0x80`, zeros to 56 mod 64, then the bit
length in 64-bit big-endian. -/
def sha256Pad (msg : List Nat) : List Nat :=
  let z := (120 - ((msg.length + 1) % 64)) % 64
  msg ++ [0x80] ++ List.replicate z 0 ++ be64 (msg.length * 8)

/-- Pack bytes (big-endian) into 32-bit words. -/
def bytesToWords : List Nat → List Nat
  | b0 :: b1 :: b2 :: b3 :: rest =>
    (((b0 * 256 + b1) * 256 + b2) * 256 + b3) :: bytesToWords rest
  | _ => []

/-- Split the word stream into 16-word blocks. -/
def wordsToBlocks : Nat → List Nat → List (List Nat)
  | 0, _ => []
  | _, [] => []
  | fuel + 1, ws => ws.take 16 :: wordsToBlocks fuel (ws.drop 16)

/-- Extend a message schedule by one word. -/
def scheduleStep (w : List Nat) : List Nat :=
  let t := w.length
  w ++ [add32 (add32 (sha256s1 (w.getD (t - 2) 0)) (w.getD (t - 7) 0))
             (add32 (sha256s0 (w.getD (t - 15) 0)) (w.getD (t - 16) 0))]

/-- The full 64-word message schedule of one block. -/
def sha256Schedule (block : List Nat) : List Nat :=
  (List.range 48).foldl (fun w _ => scheduleStep w) block

/-- One compression round on the 8-word working state. -/
def sha256Round (st : List Nat) (kw : Nat × Nat) : List Nat :=
  match st with
  | [a, b, c, d, e, f, g, h] =>
    let t1 := add32 h (add32 (sha256S1 e) (add32 (sha256Ch e f g)
      (add32 kw.1 kw.2)))
    let t2 := add32 (sha256S0 a) (sha256Maj a b c)
    [add32 t1 t2, a, b, c, add32 d t1, e, f, g]
  | _ => st

/-- Process one 16-word block. -/
def sha256Block (h : List Nat) (block : List Nat) : List Nat :=
  let w := sha256Schedule block
  let st := (sha256K.zip w).foldl sha256Round h
  (h.zip st).map fun p => add32 p.1 p.2

/-- The SHA-256 digest of a byte sequence, as eight 32-bit words. -/
def sha256Words (msg : List Nat) : List Nat :=
  let ws := bytesToWords (sha256Pad msg)
  ((wordsToBlocks (ws.length + 1) ws).foldl sha256Block sha256H0)

/-- Lower-case hex digit. -/
def hexDigitChar (n : Nat) : Char :=
  if n < 10 then Char.ofNat ('0'.toNat + n) else Char.ofNat ('a'.toNat + n - 10)

/-- Eight-digit lower-case hex rendering of a 32-bit word. -/
def word32Hex (w : Nat) : List Char :=
  (List.range 8).map fun i => hexDigitChar ((w >>> (28 - 4 * i)) &&& 15)

/-- `createHash('sha256').update(s).digest('hex')`. -/
def sha256Hex (s : String) : String :=
  ⟨((sha256Words (utf8Encode s)).map word32Hex).flatten⟩

/-! ### `FlashcardsService.generateConversationKey`
(src/modules/flashcards/service.ts)

```ts
const metadataStr = contextMetadata
  ? Object.entries(contextMetadata).sort().map(([k, v]) => `${k}:${v}`).flatten('|')
  : '';
const combined = `${systemInstruction}|${metadataStr}`;
return createHash('sha256').update(combined).digest('hex').substring(0, 16);
```

`Object.entries(m).sort()` is a STABLE sort whose default comparator
stringifies each entry (`[k, v].toString()` is `k + ',' + v`) and
compares the strings; we model the entry list in its enumeration order
and sort it with a stable insertion sort under the same comparator. -/

/-- The default-comparator string of an entry: `[k,v].toString()`. -/
def entrySortKey (p : String × String) : String := p.1 ++ "," ++ p.2

/-- Lexicographic comparison of scalar sequences (agrees with the JS
code-unit comparison on the basic multilingual plane). -/
def charListLe : List Char → List Char → Bool
  | [], _ => true
  | _ :: _, [] => false
  | a :: as, b :: bs =>
    if a.toNat < b.toNat then true
    else if b.toNat < a.toNat then false
    else charListLe as bs

/-- String comparison used by the default `sort()` comparator. -/
def jsStrLe (a b : String) : Bool := charListLe a.data b.data

/-- The comparison relation on metadata entries. -/
def entryLe (a b : String × String) : Prop :=
  jsStrLe (entrySortKey a) (entrySortKey b) = true

instance : DecidableRel entryLe := fun _ _ => decEq _ _

/-- `Object.entries(contextMetadata).sort()`: a stable sort under
`entryLe` (insertion sort is stable, and all stable sorts under the same
total preorder agree). -/
def sortEntries (l : List (String × String)) : List (String × String) :=
  l.insertionSort entryLe

/-- `metadataStr` of `generateConversationKey`. -/
def metadataStr (contextMetadata : Option (List (String × String))) : String :=
  match contextMetadata with
  | some entries =>
    String.intercalate "|" ((sortEntries entries).map fun p => p.1 ++ ":" ++ p.2)
  | none => ""

/-- `FlashcardsService.generateConversationKey`. -/
def generateConversationKey (systemInstruction : String)
    (contextMetadata : Option (List (String × String))) : String :=
  let combined := systemInstruction ++ "|" ++ metadataStr contextMetadata
  ⟨(sha256Hex combined).data.take 16⟩

/-! ### The conversation session cache

The three class-level collections shared by the services:

```ts
private static chatSessions = new Map<string, ChatSession>();
private static chatHistory = new Map<string, ChatContent[]>();
private static conversationInitialized = new Set<string>();
```

A `ChatSession` is an opaque handle to the AI provider; we model it by a
creation counter (`nextSession`) so that session identity and reuse are
observable.  JS `Map`/`Set` are modelled as association lists without
duplicate keys (`Map.set` updates in place, insertion otherwise). -/

inductive Role where
  | user : Role
  | model : Role
deriving DecidableEq

/-- One entry of the stored history (`ChatContent`; the single-element
`parts` array is inlined as `text`). -/
structure ChatContent where
  role : Role
  text : String
deriving DecidableEq

structure CacheState where
  chatSessions : List (String × Nat)
  chatHistory : List (String × List ChatContent)
  conversationInitialized : List String
  nextSession : Nat
deriving DecidableEq

/-- The state at process start: all three collections empty. -/
def emptyCache : CacheState := ⟨[], [], [], 0⟩

/-- `Map.prototype.set`. -/
def mapSet {α : Type} (m : List (String × α)) (k : String) (v : α) :
    List (String × α) :=
  if (m.lookup k).isSome then
    m.map fun p => if p.1 = k then (k, v) else p
  else m ++ [(k, v)]

/-- `Map.prototype.delete`. -/
def mapDelete {α : Type} (m : List (String × α)) (k : String) :
    List (String × α) :=
  m.filter fun p => p.1 != k

/-- `Set.prototype.add`. -/
def setAdd (s : List String) (k : String) : List String :=
  if s.contains k then s else s ++ [k]

/-- `Set.prototype.delete`. -/
def setDelete (s : List String) (k : String) : List String :=
  s.filter fun x => x != k

/-- `getOrCreateChatSession` (identical in `FlashcardsService` and
`PhilosophyFlashcardsService`): return the stored session if present;
otherwise create a fresh one seeded with the stored history, store it,
and delete the key's initialized flag. -/
def getOrCreateChatSession (key : String) (s : CacheState) :
    Nat × CacheState :=
  match s.chatSessions.lookup key with
  | some id => (id, s)
  | none =>
    (s.nextSession,
     { chatSessions := mapSet s.chatSessions key s.nextSession,
       chatHistory := s.chatHistory,
       conversationInitialized := setDelete s.conversationInitialized key,
       nextSession := s.nextSession + 1 })

/-- `this.conversationInitialized.add(conversationKey)`. -/
def markInitialized (s : CacheState) (key : String) : CacheState :=
  { s with conversationInitialized := setAdd s.conversationInitialized key }

/-- The history-update step of `generateFlashcards` (identical in all
three services):

```ts
const currentHistory = this.chatHistory.get(conversationKey) || [];
let updatedHistory;
if (currentHistory.length === 0) {
  updatedHistory = [newUserMessage, newModelResponse];
} else {
  const firstExchange = currentHistory.slice(0, 2);
  updatedHistory = [...firstExchange, newUserMessage, newModelResponse];
}
this.chatHistory.set(conversationKey, updatedHistory);
``` -/
def updateHistory (currentHistory : List ChatContent)
    (newUserMessage newModelResponse : ChatContent) : List ChatContent :=
  if currentHistory.length = 0 then [newUserMessage, newModelResponse]
  else currentHistory.take 2 ++ [newUserMessage, newModelResponse]

/-- The history-update step applied to the store. -/
def recordExchange (s : CacheState) (key message text : String) : CacheState :=
  let currentHistory := (s.chatHistory.lookup key).getD []
  let updated :=
    updateHistory currentHistory ⟨Role.user, message⟩ ⟨Role.model, text⟩
  { s with chatHistory := mapSet s.chatHistory key updated }

/-- The catch-branch cleanup of `FlashcardsService.generateFlashcards`
and `PhilosophyFlashcardsService.generateFlashcards`:

```ts
if (this.chatSessions.has(conversationKey)) {
  this.chatSessions.delete(conversationKey);
  this.chatHistory.delete(conversationKey);
  this.conversationInitialized.delete(conversationKey);
}
``` -/
def invalidateOnFailure (s : CacheState) (key : String) : CacheState :=
  if (s.chatSessions.lookup key).isSome then
    { s with chatSessions := mapDelete s.chatSessions key,
             chatHistory := mapDelete s.chatHistory key,
             conversationInitialized := setDelete s.conversationInitialized key }
  else s

/-- `clearConversation` (identical in the generic and base services). -/
def clearConversation (s : CacheState) (key : String) : CacheState :=
  { s with chatSessions := mapDelete s.chatSessions key,
           chatHistory := mapDelete s.chatHistory key,
           conversationInitialized := setDelete s.conversationInitialized key }

/-- `clearAllConversations`. -/
def clearAllConversations (s : CacheState) : CacheState :=
  { s with chatSessions := [], chatHistory := [],
           conversationInitialized := [] }

/-- `PoliticalPhilosophyFlashcardsService.clearHistoryForThinker`: evict
every stored session whose key is for the same thinker but a different
work, deleting the key from all three collections. -/
def clearHistoryForThinker (s : CacheState) (thinker currentWork : String) :
    CacheState :=
  let doomed := (s.chatSessions.map Prod.fst).filter fun k =>
    jsStartsWith k (thinker ++ "|") && !(jsEndsWith k ("|" ++ currentWork))
  { s with
    chatSessions := s.chatSessions.filter fun p => !(doomed.contains p.1),
    chatHistory := s.chatHistory.filter fun p => !(doomed.contains p.1),
    conversationInitialized :=
      s.conversationInitialized.filter fun k => !(doomed.contains k) }

/-! ### `FlashcardsService.buildMessage` and `generateFlashcards`
(src/modules/flashcards/service.ts) -/

/-- The deep-analysis block of `buildMessage`. -/
def deepAnalysisMode : String :=
  "\n\n⚠️ DEEP ANALYSIS MODE:\n- Provide comprehensive analysis of the content\n- Create flashcards for every significant aspect, nuance, and context\n- Look for primary concepts, secondary ideas, examples, implications, and subtle distinctions\n- A typical passage should generate 3-6 flashcards in this mode\n- Don\x27t hesitate to create many flashcards - thorough coverage is desired\n"

/-- The standard-mode block of `buildMessage`. -/
def standardMode : String :=
  "\n\n⚠️ STANDARD MODE:\n- Identify the 1-2 main ideas in the content\n- Create one flashcard if the content focuses on a single concept\n- Create 2 flashcards if the content contains two distinct ideas or aspects\n- Don\x27t force multiple flashcards if the content addresses only one idea\n"

/-- The `metadataSection` of `buildMessage` (context metadata is modelled
as its `Object.entries` list in enumeration order). -/
def buildMetadataSection (contextMetadata : Option (List (String × String))) :
    String :=
  match contextMetadata with
  | some entries =>
    if entries.length > 0 then
      "\n\nContext Metadata:\n" ++
        String.intercalate "\n" (entries.map fun p => p.1 ++ ": " ++ p.2) ++ "\n"
    else ""
  | none => ""

/-- `FlashcardsService.buildMessage`: the system-instruction prefix is
included exactly when `isFirstMessage` is set. -/
def buildMessage (content systemInstruction : String)
    (contextMetadata : Option (List (String × String)))
    (extraCards isFirstMessage : Bool) : String :=
  let metadataSection := buildMetadataSection contextMetadata
  let analysisMode := if extraCards then deepAnalysisMode else standardMode
  let systemInstructionPrefix :=
    if isFirstMessage then systemInstruction ++ "\n\n---\n\n" else ""
  systemInstructionPrefix ++ "Content to analyze:\n" ++ content ++
    metadataSection ++ analysisMode

/-- `GenerateFlashcardsInput` of the generic service (the `language`
field only affects logging and is omitted). -/
structure GenerateFlashcardsInput where
  content : String
  systemInstruction : String
  contextMetadata : Option (List (String × String))
  cardTypes : Option (List String)
  extraCards : Bool
  conversationKey : Option String

/-- The conversation key used by a generic request: the caller-supplied
key, or the derived hash key. -/
def convKeyOf (input : GenerateFlashcardsInput) : String :=
  input.conversationKey.getD
    (generateConversationKey input.systemInstruction input.contextMetadata)

/-- Observable outcome of one `generateFlashcards` call: the new cache
state, the message handed to `chat.sendMessage`, the `isFirstMessage`
flag the call computed, and the parsed result (`none` when the call
threw). -/
structure GenOutcome where
  state : CacheState
  conversationKey : String
  sentMessage : String
  isFirstMessage : Bool
  result : Option (List Flashcard)

/-- `FlashcardsService.generateFlashcards` as a state transformer.  The
AI round trip is the `send` parameter: `some raw` is a reply with text
`raw`, `none` a send failure.  Mirrors the source order: read the
initialized flag, get-or-create the session, build the message, mark
initialized, send; on success trim the reply, record the exchange and
parse; on failure run the catch-branch cleanup and rethrow. -/
def genericGenerateFlashcards (s : CacheState)
    (input : GenerateFlashcardsInput) (send : Option String) : GenOutcome :=
  let conversationKey := convKeyOf input
  let isFirstMessage := !(s.conversationInitialized.contains conversationKey)
  let s1 := (getOrCreateChatSession conversationKey s).2
  let message := buildMessage input.content input.systemInstruction
    input.contextMetadata input.extraCards isFirstMessage
  let s2 := if isFirstMessage then markInitialized s1 conversationKey else s1
  match send with
  | none =>
    { state := invalidateOnFailure s2 conversationKey,
      conversationKey := conversationKey, sentMessage := message,
      isFirstMessage := isFirstMessage, result := none }
  | some raw =>
    let text := jsTrim raw
    let s3 := recordExchange s2 conversationKey message text
    { state := s3, conversationKey := conversationKey,
      sentMessage := message, isFirstMessage := isFirstMessage,
      result := some (parseFlashcardsResponseGeneric text input.cardTypes) }

/-- `PhilosophyFlashcardsService.generateFlashcards` (the template
method), after input validation.  `conversationKey` is what the derived
class's `generateConversationKey` returns, `buildMsg` its `buildMessage`
applied to everything but the `isFirstMessage` flag, and `parse` its
`parseFlashcardsResponse`; the send failure path deletes the session,
history and flag before rethrowing. -/
def baseGenerateFlashcards (s : CacheState) (conversationKey : String)
    (buildMsg : Bool → String) (parse : String → List Flashcard)
    (send : Option String) : GenOutcome :=
  let isFirstMessage := !(s.conversationInitialized.contains conversationKey)
  let s1 := (getOrCreateChatSession conversationKey s).2
  let message := buildMsg isFirstMessage
  let s2 := if isFirstMessage then markInitialized s1 conversationKey else s1
  match send with
  | none =>
    { state := invalidateOnFailure s2 conversationKey,
      conversationKey := conversationKey, sentMessage := message,
      isFirstMessage := isFirstMessage, result := none }
  | some raw =>
    let text := jsTrim raw
    let s3 := recordExchange s2 conversationKey message text
    { state := s3, conversationKey := conversationKey,
      sentMessage := message, isFirstMessage := isFirstMessage,
      result := some (parse text) }

/-- `PoliticalPhilosophyFlashcardsService.generateFlashcards` (the
override): key is `thinker|work`; session creation first evicts other
works of the same thinker; the initialized flag is set before the
message is built; and its catch branch only logs and rethrows — it does
NOT delete the cache entry. -/
def politicalGenerateFlashcards (s : CacheState) (input : PhilInput)
    (buildMsg : Bool → String) (send : Option String) : GenOutcome :=
  let conversationKey := input.thinker ++ "|" ++ input.work
  let isFirstMessage := !(s.conversationInitialized.contains conversationKey)
  let s1 :=
    if (s.chatSessions.lookup conversationKey).isSome then s
    else
      (getOrCreateChatSession conversationKey
        (clearHistoryForThinker s input.thinker input.work)).2
  let s2 := if isFirstMessage then markInitialized s1 conversationKey else s1
  let message := buildMsg isFirstMessage
  match send with
  | none =>
    { state := s2, conversationKey := conversationKey,
      sentMessage := message, isFirstMessage := isFirstMessage,
      result := none }
  | some raw =>
    let text := jsTrim raw
    let s3 := recordExchange s2 conversationKey message text
    { state := s3, conversationKey := conversationKey,
      sentMessage := message, isFirstMessage := isFirstMessage,
      result := some (parseFlashcardsResponsePolitical text input) }

/-- Every cache-mutating operation of the three services. -/
inductive CacheOp where
  | opGetOrCreate (key : String) : CacheOp
  | opGenericGen (input : GenerateFlashcardsInput) (send : Option String) :
      CacheOp
  | opBaseGen (key : String) (buildMsg : Bool → String)
      (parse : String → List Flashcard) (send : Option String) : CacheOp
  | opPoliticalGen (input : PhilInput) (buildMsg : Bool → String)
      (send : Option String) : CacheOp
  | opClearConversation (key : String) : CacheOp
  | opClearAllConversations : CacheOp
  | opClearHistoryForThinker (thinker work : String) : CacheOp

def applyCacheOp (s : CacheState) : CacheOp → CacheState
  | CacheOp.opGetOrCreate key => (getOrCreateChatSession key s).2
  | CacheOp.opGenericGen input send =>
    (genericGenerateFlashcards s input send).state
  | CacheOp.opBaseGen key bm p send =>
    (baseGenerateFlashcards s key bm p send).state
  | CacheOp.opPoliticalGen input bm send =>
    (politicalGenerateFlashcards s input bm send).state
  | CacheOp.opClearConversation key => clearConversation s key
  | CacheOp.opClearAllConversations => clearAllConversations s
  | CacheOp.opClearHistoryForThinker t w => clearHistoryForThinker s t w

/-- The cache coherence invariant: every key flagged as initialized has
a stored `ChatSession`. -/
def cacheInv (s : CacheState) : Prop :=
  ∀ k ∈ s.conversationInitialized, (s.chatSessions.lookup k).isSome = true

/-- Iterated `recordExchange` for one key over a list of
(user text, model text) exchanges. -/
def runRecordExchanges (s : CacheState) (key : String) :
    List (String × String) → CacheState
  | [] => s
  | e :: rest => runRecordExchanges (recordExchange s key e.1 e.2) key rest

/-- Sequential successful `FlashcardsService.generateFlashcards` calls
sharing one input template; each call supplies its content and the AI's
reply, and reports the `isFirstMessage` flag it used. -/
def runGenericCalls (s : CacheState) (input : GenerateFlashcardsInput) :
    List (String × String) → CacheState × List Bool
  | [] => (s, [])
  | (c, r) :: rest =>
    let out := genericGenerateFlashcards s { input with content := c } (some r)
    let (s', flags) := runGenericCalls out.state input rest
    (s', out.isFirstMessage :: flags)

/-! ## Lemmas about the `Map`/`Set` model -/

theorem lookup_mapReplace {α : Type} (m : List (String × α)) (k : String)
    (v : α) (h : (m.lookup k).isSome = true) :
    (m.map fun p => if p.1 = k then (k, v) else p).lookup k = some v := by
  induction m with
  | nil => simp at h
  | cons p t ih =>
    obtain ⟨a, b⟩ := p
    by_cases hk : a = k
    · subst hk
      simp [List.lookup_cons]
    · have hne : (k == a) = false := by
        simp only [beq_eq_false_iff_ne, ne_eq]
        exact fun hh => hk hh.symm
      simp only [List.lookup_cons, hne] at h
      simp [List.map_cons, if_neg hk, List.lookup_cons, hne, ih h]

theorem lookup_appendNew {α : Type} (m : List (String × α)) (k : String)
    (v : α) : (m ++ [(k, v)]).lookup k =
      ((m.lookup k).getD v : α) := by
  induction m with
  | nil => simp [List.lookup_cons]
  | cons p t ih =>
    obtain ⟨a, b⟩ := p
    by_cases hx : (k == a) = true
    · simp [List.lookup_cons, hx]
    · simp only [Bool.not_eq_true] at hx
      simp [List.lookup_cons, hx, ih]

theorem lookup_mapSet_self {α : Type} (m : List (String × α)) (k : String)
    (v : α) : (mapSet m k v).lookup k = some v := by
  unfold mapSet
  split
  case isTrue h => exact lookup_mapReplace m k v h
  case isFalse h =>
    rw [lookup_appendNew]
    cases hx : m.lookup k with
    | some w => simp [hx] at h
    | none => simp

theorem lookup_mapReplace_ne {α : Type} (m : List (String × α))
    (k k' : String) (v : α) (hne : k' ≠ k) :
    (m.map fun p => if p.1 = k then (k, v) else p).lookup k' =
      m.lookup k' := by
  induction m with
  | nil => simp
  | cons p t ih =>
    obtain ⟨a, b⟩ := p
    by_cases hk : a = k
    · subst hk
      have hbk : (k' == a) = false := by simpa [beq_eq_false_iff_ne, ne_eq]
      simp [List.lookup_cons, hbk, ih]
    · by_cases hx : (k' == a) = true
      · simp [List.map_cons, if_neg hk, List.lookup_cons, hx]
      · simp only [Bool.not_eq_true] at hx
        simp [List.map_cons, if_neg hk, List.lookup_cons, hx, ih]

theorem lookup_appendNew_ne {α : Type} (m : List (String × α))
    (k k' : String) (v : α) (hne : k' ≠ k) :
    (m ++ [(k, v)]).lookup k' = m.lookup k' := by
  have hbk : (k' == k) = false := by simpa [beq_eq_false_iff_ne, ne_eq]
  induction m with
  | nil => simp [List.lookup_cons, hbk]
  | cons p t ih =>
    obtain ⟨a, b⟩ := p
    by_cases hx : (k' == a) = true
    · simp [List.lookup_cons, hx]
    · simp only [Bool.not_eq_true] at hx
      simp [List.lookup_cons, hx, ih]

theorem lookup_mapSet_ne {α : Type} (m : List (String × α)) (k k' : String)
    (v : α) (hne : k' ≠ k) : (mapSet m k v).lookup k' = m.lookup k' := by
  unfold mapSet
  split
  · exact lookup_mapReplace_ne m k k' v hne
  · exact lookup_appendNew_ne m k k' v hne

theorem lookup_filterKey {α : Type} (m : List (String × α))
    (q : String × α → Bool) (k : String) (hk : ∀ v, q (k, v) = true) :
    (m.filter q).lookup k = m.lookup k := by
  induction m with
  | nil => simp
  | cons p t ih =>
    obtain ⟨a, b⟩ := p
    by_cases hp : q (a, b) = true
    · by_cases hk' : (k == a) = true
      · simp [List.filter_cons, hp, List.lookup_cons, hk']
      · simp only [Bool.not_eq_true] at hk'
        simp [List.filter_cons, hp, List.lookup_cons, hk', ih]
    · have hne : (k == a) = false := by
        have hka : k ≠ a := by
          intro hh
          subst hh
          exact hp (hk b)
        simpa [beq_eq_false_iff_ne, ne_eq]
      simp only [Bool.not_eq_true] at hp
      simp [List.filter_cons, hp, List.lookup_cons, hne, ih]

theorem lookup_mapDelete_self {α : Type} (m : List (String × α)) (k : String) :
    (mapDelete m k).lookup k = none := by
  unfold mapDelete
  induction m with
  | nil => simp
  | cons p t ih =>
    obtain ⟨a, b⟩ := p
    by_cases hp : a = k
    · subst hp
      simp [List.filter_cons, ih]
    · have h1 : (a != k) = true := by simpa [bne_iff_ne, ne_eq]
      have h2 : (k == a) = false := by
        simp only [beq_eq_false_iff_ne, ne_eq]
        exact fun hh => hp hh.symm
      simp [List.filter_cons, h1, List.lookup_cons, h2, ih]

theorem lookup_mapDelete_ne {α : Type} (m : List (String × α)) (k k' : String)
    (hne : k' ≠ k) : (mapDelete m k).lookup k' = m.lookup k' :=
  lookup_filterKey m (fun p => p.1 != k) k'
    (by intro v; simpa [bne_iff_ne, ne_eq])

theorem contains_iff_memL {s : List String} {k : String} :
    s.contains k = true ↔ k ∈ s := by
  simp [List.contains, List.elem_iff]

theorem mem_setDelete {s : List String} {k k' : String} :
    k' ∈ setDelete s k ↔ k' ∈ s ∧ k' ≠ k := by
  unfold setDelete
  simp [List.mem_filter, bne_iff_ne]

theorem contains_setDelete_self (s : List String) (k : String) :
    (setDelete s k).contains k = false := by
  by_contra h
  have hmem : k ∈ setDelete s k := contains_iff_memL.mp (by
    cases hx : (setDelete s k).contains k with
    | true => rfl
    | false => exact absurd hx h)
  exact (mem_setDelete.mp hmem).2 rfl

theorem mem_setAdd {s : List String} {k k' : String} :
    k' ∈ setAdd s k ↔ k' ∈ s ∨ k' = k := by
  unfold setAdd
  split
  case isTrue h =>
    constructor
    · exact fun hh => Or.inl hh
    · intro hh
      rcases hh with hh | hh
      · exact hh
      · subst hh
        exact contains_iff_memL.mp h
  case isFalse h => simp

theorem contains_setAdd_self (s : List String) (k : String) :
    (setAdd s k).contains k = true :=
  contains_iff_memL.mpr (mem_setAdd.mpr (Or.inr rfl))

/-! ## Lemmas about the cache operations -/

theorem getOrCreate_lookup_self (key : String) (s : CacheState) :
    (((getOrCreateChatSession key s).2).chatSessions.lookup key).isSome =
      true := by
  unfold getOrCreateChatSession
  cases h : s.chatSessions.lookup key with
  | some id => simp [h]
  | none => simp [h, lookup_mapSet_self]

theorem recordExchange_sessions (s : CacheState) (k m t : String) :
    (recordExchange s k m t).chatSessions = s.chatSessions := rfl

theorem recordExchange_initialized (s : CacheState) (k m t : String) :
    (recordExchange s k m t).conversationInitialized =
      s.conversationInitialized := rfl

theorem markInitialized_sessions (s : CacheState) (k : String) :
    (markInitialized s k).chatSessions = s.chatSessions := rfl

/- C1 helper: once the stored history for `key` holds a first pair
`[u1, m1]` in front and has length 2 or 4, every further recorded
exchange keeps `[u1, m1]` in front and makes the length exactly 4. -/
theorem runRecord_invariant (key : String) (u1 m1 : ChatContent) :
    ∀ (rest : List (String × String)) (s : CacheState)
      (hist : List ChatContent),
      s.chatHistory.lookup key = some hist →
      hist.take 2 = [u1, m1] → 2 ≤ hist.length →
      ∃ hist',
        (runRecordExchanges s key rest).chatHistory.lookup key = some hist' ∧
        hist'.take 2 = [u1, m1] ∧
        hist'.length = (if rest = [] then hist.length else 4) := by
  intro rest
  induction rest with
  | nil =>
    intro s hist hlook htake hlen
    exact ⟨hist, hlook, htake, by simp⟩
  | cons e rest ih =>
    intro s hist hlook htake hlen
    have hne : hist.length ≠ 0 := by omega
    have hupd :
        (recordExchange s key e.1 e.2).chatHistory.lookup key =
          some (hist.take 2 ++
            [⟨Role.user, e.1⟩, ⟨Role.model, e.2⟩]) := by
      unfold recordExchange updateHistory
      simp only [hlook, Option.getD_some, if_neg hne]
      exact lookup_mapSet_self _ _ _
    have htake2 : (hist.take 2 ++
        [(⟨Role.user, e.1⟩ : ChatContent), ⟨Role.model, e.2⟩]).take 2 =
        [u1, m1] := by
      rw [htake]
      rfl
    have hlen2 : (hist.take 2 ++
        [(⟨Role.user, e.1⟩ : ChatContent), ⟨Role.model, e.2⟩]).length = 4 := by
      have : (hist.take 2).length = 2 := by
        rw [htake]
        rfl
      simp [this]
    obtain ⟨hist', h1, h2, h3⟩ :=
      ih (recordExchange s key e.1 e.2) _ hupd htake2 (by omega)
    refine ⟨hist', ?_, h2, ?_⟩
    · simpa [runRecordExchanges] using h1
    · rw [h3]
      by_cases hr : rest = [] <;> simp [hr, hlen2]

/-- C1: after `N ≥ 1` recorded exchanges for a key (starting from no
stored history), the stored history has length 2 when `N = 1` and
exactly 4 for every `N ≥ 2`, and its first two entries are always the
user message and model response of the very first recorded exchange. -/
theorem conversationHistory_truncation (s : CacheState) (key : String)
    (e : String × String) (rest : List (String × String))
    (h : s.chatHistory.lookup key = none) :
    ∃ hist,
      (runRecordExchanges s key (e :: rest)).chatHistory.lookup key =
        some hist ∧
      hist.length = (if rest = [] then 2 else 4) ∧
      hist.take 2 = [⟨Role.user, e.1⟩, ⟨Role.model, e.2⟩] := by
  have hupd :
      (recordExchange s key e.1 e.2).chatHistory.lookup key =
        some [⟨Role.user, e.1⟩, ⟨Role.model, e.2⟩] := by
    unfold recordExchange updateHistory
    simp only [h, Option.getD_none, List.length_nil, if_pos rfl]
    exact lookup_mapSet_self _ _ _
  obtain ⟨hist', h1, h2, h3⟩ :=
    runRecord_invariant key ⟨Role.user, e.1⟩ ⟨Role.model, e.2⟩ rest
      (recordExchange s key e.1 e.2) _ hupd rfl (by simp)
  refine ⟨hist', by simpa [runRecordExchanges] using h1, ?_, h2⟩
  rw [h3]
  by_cases hr : rest = [] <;> simp [hr]

/-- C1 witness: two exchanges recorded from the empty cache give a
4-entry history headed by the first exchange. -/
theorem conversationHistory_truncation_witness :
    ∃ hist,
      (runRecordExchanges emptyCache "k"
        [("u1", "m1"), ("u2", "m2")]).chatHistory.lookup "k" = some hist ∧
      hist.length = (if (([("u2", "m2")] : List (String × String)) = [])
        then 2 else 4) ∧
      hist.take 2 = [⟨Role.user, "u1"⟩, ⟨Role.model, "m1"⟩] :=
  conversationHistory_truncation emptyCache "k" ("u1", "m1") [("u2", "m2")]
    (by decide)

/-- C4 (amended): in the base-class template method (used by the
philosophy services through inheritance, and mirrored by the generic
`FlashcardsService`), a send failure removes the stored session, history
and initialized flag for the key before the generic failure is
rethrown.  (The political service's own `generateFlashcards` override
does NOT do this — see the counterexample.) -/
theorem invalidateOnFailure_clears (s' : CacheState) (key : String)
    (h : (s'.chatSessions.lookup key).isSome = true) :
    (invalidateOnFailure s' key).chatSessions.lookup key = none ∧
    (invalidateOnFailure s' key).chatHistory.lookup key = none ∧
    (invalidateOnFailure s' key).conversationInitialized.contains key =
      false := by
  unfold invalidateOnFailure
  rw [if_pos h]
  exact ⟨lookup_mapDelete_self _ _, lookup_mapDelete_self _ _,
    contains_setDelete_self _ _⟩

theorem sendFailure_invalidates_base (s : CacheState) (key : String)
    (buildMsg : Bool → String) (parse : String → List Flashcard) :
    let out := baseGenerateFlashcards s key buildMsg parse none
    out.result = none ∧
    out.state.chatSessions.lookup key = none ∧
    out.state.chatHistory.lookup key = none ∧
    out.state.conversationInitialized.contains key = false := by
  refine ⟨rfl, ?_⟩
  show (invalidateOnFailure _ key).chatSessions.lookup key = none ∧
    (invalidateOnFailure _ key).chatHistory.lookup key = none ∧
    (invalidateOnFailure _ key).conversationInitialized.contains key = false
  apply invalidateOnFailure_clears
  split <;> simpa [markInitialized] using getOrCreate_lookup_self key s

/-- C4 counterexample: in the political service's `generateFlashcards`
override, a send failure leaves the session and the initialized flag in
the cache (its catch branch only logs and rethrows). -/
theorem sendFailure_political_keeps_entry :
    let out := politicalGenerateFlashcards emptyCache
      ⟨"p", "T", "W", none⟩ (fun _ => "m") none
    out.result = none ∧
    (out.state.chatSessions.lookup "T|W").isSome = true ∧
    out.state.conversationInitialized.contains "T|W" = true := by
  decide

/-! ## The initialized-implies-session invariant (C10) -/

theorem inv_getOrCreate (s : CacheState) (key : String) (hinv : cacheInv s) :
    cacheInv (getOrCreateChatSession key s).2 := by
  unfold getOrCreateChatSession
  cases h : s.chatSessions.lookup key with
  | some id => exact hinv
  | none =>
    intro k hk
    obtain ⟨hks, hkne⟩ := mem_setDelete.mp hk
    simpa [lookup_mapSet_ne _ _ _ _ hkne] using hinv k hks

theorem inv_markInitialized (s : CacheState) (key : String)
    (hinv : cacheInv s) (hs : (s.chatSessions.lookup key).isSome = true) :
    cacheInv (markInitialized s key) := by
  intro k hk
  rcases mem_setAdd.mp hk with hks | hkeq
  · exact hinv k hks
  · subst hkeq
    exact hs

theorem inv_recordExchange (s : CacheState) (key m t : String)
    (hinv : cacheInv s) : cacheInv (recordExchange s key m t) :=
  fun k hk => hinv k hk

theorem inv_invalidateOnFailure (s : CacheState) (key : String)
    (hinv : cacheInv s) : cacheInv (invalidateOnFailure s key) := by
  unfold invalidateOnFailure
  split
  · intro k hk
    obtain ⟨hks, hkne⟩ := mem_setDelete.mp hk
    simpa [lookup_mapDelete_ne _ _ _ hkne] using hinv k hks
  · exact hinv

theorem inv_clearConversation (s : CacheState) (key : String)
    (hinv : cacheInv s) : cacheInv (clearConversation s key) := by
  intro k hk
  obtain ⟨hks, hkne⟩ := mem_setDelete.mp hk
  simpa [clearConversation, lookup_mapDelete_ne _ _ _ hkne] using hinv k hks

theorem inv_clearAllConversations (s : CacheState)
    (_hinv : cacheInv s) : cacheInv (clearAllConversations s) := by
  intro k hk
  cases hk

theorem inv_clearHistoryForThinker (s : CacheState) (thinker work : String)
    (hinv : cacheInv s) : cacheInv (clearHistoryForThinker s thinker work) := by
  intro k hk
  simp only [clearHistoryForThinker, List.mem_filter] at hk ⊢
  obtain ⟨hks, hkeep⟩ := hk
  rw [lookup_filterKey s.chatSessions _ k (fun v => hkeep)]
  exact hinv k hks

theorem inv_genericStep (s : CacheState) (input : GenerateFlashcardsInput)
    (send : Option String) (hinv : cacheInv s) :
    cacheInv (genericGenerateFlashcards s input send).state := by
  unfold genericGenerateFlashcards
  have h1 := inv_getOrCreate s (convKeyOf input) hinv
  have hsome := getOrCreate_lookup_self (convKeyOf input) s
  have h2 : cacheInv
      (if (!s.conversationInitialized.contains (convKeyOf input)) = true
       then markInitialized (getOrCreateChatSession (convKeyOf input) s).2
          (convKeyOf input)
       else (getOrCreateChatSession (convKeyOf input) s).2) := by
    split
    · exact inv_markInitialized _ _ h1 hsome
    · exact h1
  cases send with
  | none => exact inv_invalidateOnFailure _ _ h2
  | some raw => exact inv_recordExchange _ _ _ _ h2

theorem inv_baseStep (s : CacheState) (key : String) (bm : Bool → String)
    (parse : String → List Flashcard) (send : Option String)
    (hinv : cacheInv s) :
    cacheInv (baseGenerateFlashcards s key bm parse send).state := by
  unfold baseGenerateFlashcards
  have h1 := inv_getOrCreate s key hinv
  have hsome := getOrCreate_lookup_self key s
  have h2 : cacheInv
      (if (!s.conversationInitialized.contains key) = true
       then markInitialized (getOrCreateChatSession key s).2 key
       else (getOrCreateChatSession key s).2) := by
    split
    · exact inv_markInitialized _ _ h1 hsome
    · exact h1
  cases send with
  | none => exact inv_invalidateOnFailure _ _ h2
  | some raw => exact inv_recordExchange _ _ _ _ h2

theorem inv_politicalStep (s : CacheState) (input : PhilInput)
    (bm : Bool → String) (send : Option String) (hinv : cacheInv s) :
    cacheInv (politicalGenerateFlashcards s input bm send).state := by
  unfold politicalGenerateFlashcards
  have h1 : cacheInv
      (if (s.chatSessions.lookup (input.thinker ++ "|" ++ input.work)).isSome
       then s
       else (getOrCreateChatSession (input.thinker ++ "|" ++ input.work)
         (clearHistoryForThinker s input.thinker input.work)).2) := by
    split
    · exact hinv
    · exact inv_getOrCreate _ _
        (inv_clearHistoryForThinker s input.thinker input.work hinv)
  have hsome :
      (((if (s.chatSessions.lookup
            (input.thinker ++ "|" ++ input.work)).isSome
         then s
         else (getOrCreateChatSession (input.thinker ++ "|" ++ input.work)
           (clearHistoryForThinker s input.thinker
             input.work)).2)).chatSessions.lookup
          (input.thinker ++ "|" ++ input.work)).isSome = true := by
    split
    case isTrue h => exact h
    case isFalse h => exact getOrCreate_lookup_self _ _
  have h2 : cacheInv
      (if (!s.conversationInitialized.contains
            (input.thinker ++ "|" ++ input.work)) = true
       then markInitialized
          (if (s.chatSessions.lookup
                (input.thinker ++ "|" ++ input.work)).isSome
           then s
           else (getOrCreateChatSession (input.thinker ++ "|" ++ input.work)
             (clearHistoryForThinker s input.thinker input.work)).2)
          (input.thinker ++ "|" ++ input.work)
       else
         (if (s.chatSessions.lookup
               (input.thinker ++ "|" ++ input.work)).isSome
          then s
          else (getOrCreateChatSession (input.thinker ++ "|" ++ input.work)
            (clearHistoryForThinker s input.thinker input.work)).2)) := by
    split
    · exact inv_markInitialized _ _ h1 hsome
    · exact h1
  cases send with
  | none => exact h2
  | some raw => exact inv_recordExchange _ _ _ _ h2

/-- C10: every cache-mutating operation of the services preserves the
invariant that each initialized key has a stored session, and creating
a new `ChatSession` for an absent key always deletes that key's
initialized flag. -/
theorem cacheInv_preserved (s : CacheState) (op : CacheOp) (key : String)
    (hinv : cacheInv s) :
    cacheInv (applyCacheOp s op) ∧
    (s.chatSessions.lookup key = none →
      (getOrCreateChatSession key s).2.conversationInitialized.contains key =
        false) := by
  constructor
  · cases op with
    | opGetOrCreate k => exact inv_getOrCreate s k hinv
    | opGenericGen input send => exact inv_genericStep s input send hinv
    | opBaseGen k bm p send => exact inv_baseStep s k bm p send hinv
    | opPoliticalGen input bm send => exact inv_politicalStep s input bm send hinv
    | opClearConversation k => exact inv_clearConversation s k hinv
    | opClearAllConversations => exact inv_clearAllConversations s hinv
    | opClearHistoryForThinker t w => exact inv_clearHistoryForThinker s t w hinv
  · intro hnone
    unfold getOrCreateChatSession
    rw [hnone]
    exact contains_setDelete_self _ _

/-- C10 witness. -/
theorem cacheInv_preserved_witness :
    cacheInv (applyCacheOp emptyCache (CacheOp.opGetOrCreate "k")) ∧
    (emptyCache.chatSessions.lookup "k" = none →
      (getOrCreateChatSession "k"
        emptyCache).2.conversationInitialized.contains "k" = false) :=
  cacheInv_preserved emptyCache (CacheOp.opGetOrCreate "k") "k"
    (by intro k hk; cases hk)

/-! ## System-instruction bookkeeping (C5) -/

theorem convKeyOf_content (input : GenerateFlashcardsInput) (c : String) :
    convKeyOf { input with content := c } = convKeyOf input := rfl

theorem genStep_session (s : CacheState) (input : GenerateFlashcardsInput)
    (r : String) :
    (((genericGenerateFlashcards s input
        (some r)).state).chatSessions.lookup (convKeyOf input)).isSome =
      true := by
  unfold genericGenerateFlashcards
  simp only [recordExchange_sessions]
  split
  · simpa [markInitialized] using getOrCreate_lookup_self (convKeyOf input) s
  · exact getOrCreate_lookup_self (convKeyOf input) s

theorem genStep_initialized (s : CacheState)
    (input : GenerateFlashcardsInput) (r : String)
    (hc : s.conversationInitialized.contains (convKeyOf input) = true)
    (hq : (s.chatSessions.lookup (convKeyOf input)).isSome = true) :
    (genericGenerateFlashcards s input (some r)).isFirstMessage = false ∧
    (genericGenerateFlashcards s input
      (some r)).state.conversationInitialized.contains (convKeyOf input) =
        true ∧
    (((genericGenerateFlashcards s input
        (some r)).state).chatSessions.lookup (convKeyOf input)).isSome =
      true := by
  refine ⟨?_, ?_, genStep_session s input r⟩
  · show (!s.conversationInitialized.contains (convKeyOf input)) = false
    rw [hc]
    rfl
  · cases hlk : s.chatSessions.lookup (convKeyOf input) with
    | none => rw [hlk] at hq; simp at hq
    | some id =>
      have hgo : getOrCreateChatSession (convKeyOf input) s = (id, s) := by
        unfold getOrCreateChatSession
        rw [hlk]
      unfold genericGenerateFlashcards
      simp only [recordExchange_initialized, hgo, hc]
      simpa using contains_iff_memL.mp hc

theorem genStep_uninitialized (s : CacheState)
    (input : GenerateFlashcardsInput) (r : String)
    (hc : s.conversationInitialized.contains (convKeyOf input) = false) :
    (genericGenerateFlashcards s input (some r)).isFirstMessage = true ∧
    (genericGenerateFlashcards s input
      (some r)).state.conversationInitialized.contains (convKeyOf input) =
        true ∧
    (((genericGenerateFlashcards s input
        (some r)).state).chatSessions.lookup (convKeyOf input)).isSome =
      true := by
  have hflag : (!s.conversationInitialized.contains (convKeyOf input)) =
      true := by rw [hc]; rfl
  refine ⟨hflag, ?_, genStep_session s input r⟩
  unfold genericGenerateFlashcards
  simp only [recordExchange_initialized, hflag, if_pos]
  exact contains_setAdd_self _ _

theorem runGeneric_allFalse (input : GenerateFlashcardsInput) :
    ∀ (calls : List (String × String)) (s : CacheState),
      s.conversationInitialized.contains (convKeyOf input) = true →
      (s.chatSessions.lookup (convKeyOf input)).isSome = true →
      ∀ f ∈ (runGenericCalls s input calls).2, f = false := by
  intro calls
  induction calls with
  | nil => intro s _ _ f hf; cases hf
  | cons e rest ih =>
    intro s hc hq f hf
    obtain ⟨c, r⟩ := e
    obtain ⟨h1, h2, h3⟩ :=
      genStep_initialized s { input with content := c } r hc hq
    simp only [runGenericCalls, List.mem_cons] at hf
    rcases hf with hf | hf
    · rw [hf]; exact h1
    · exact ih _ h2 h3 f hf

theorem runGeneric_count_session (input : GenerateFlashcardsInput) :
    ∀ (calls : List (String × String)) (s : CacheState),
      (s.chatSessions.lookup (convKeyOf input)).isSome = true →
      List.count true (runGenericCalls s input calls).2 ≤ 1 := by
  intro calls
  induction calls with
  | nil => intro s _; simp [runGenericCalls]
  | cons e rest ih =>
    intro s hq
    obtain ⟨c, r⟩ := e
    cases hc : s.conversationInitialized.contains (convKeyOf input) with
    | true =>
      obtain ⟨h1, h2, h3⟩ :=
        genStep_initialized s { input with content := c } r hc hq
      have hall := runGeneric_allFalse input rest _ h2 h3
      have hcnt : List.count true (runGenericCalls
          (genericGenerateFlashcards s { input with content := c }
            (some r)).state input rest).2 = 0 := by
        rw [List.count_eq_zero]
        intro hmem
        exact absurd (hall true hmem) (by simp)
      simp [runGenericCalls, List.count_cons, h1, hcnt]
    | false =>
      obtain ⟨h1, h2, h3⟩ :=
        genStep_uninitialized s { input with content := c } r hc
      have hall := runGeneric_allFalse input rest _ h2 h3
      have hcnt : List.count true (runGenericCalls
          (genericGenerateFlashcards s { input with content := c }
            (some r)).state input rest).2 = 0 := by
        rw [List.count_eq_zero]
        intro hmem
        exact absurd (hall true hmem) (by simp)
      simp [runGenericCalls, List.count_cons, h1, hcnt]

/-- C5: the outgoing message of `FlashcardsService.generateFlashcards`
carries the system-instruction prefix exactly when the conversation key
is absent from the initialized set, and across any run of sequential
successful calls the instruction is sent at most once. -/
theorem systemInstruction_once (s : CacheState)
    (input : GenerateFlashcardsInput) (send : Option String)
    (calls : List (String × String)) :
    ((genericGenerateFlashcards s input send).isFirstMessage
        = !s.conversationInitialized.contains (convKeyOf input) ∧
     (genericGenerateFlashcards s input send).sentMessage
        = buildMessage input.content input.systemInstruction
            input.contextMetadata input.extraCards
            (!s.conversationInitialized.contains (convKeyOf input))) ∧
    List.count true (runGenericCalls s input calls).2 ≤ 1 := by
  refine ⟨by cases send <;> exact ⟨rfl, rfl⟩, ?_⟩
  cases calls with
  | nil => simp [runGenericCalls]
  | cons e rest =>
    obtain ⟨c, r⟩ := e
    cases hc : s.conversationInitialized.contains (convKeyOf input) with
    | true =>
      have hflag : (genericGenerateFlashcards s { input with content := c }
          (some r)).isFirstMessage = false := by
        show (!s.conversationInitialized.contains
          (convKeyOf { input with content := c })) = false
        rw [convKeyOf_content, hc]
        rfl
      have hrest := runGeneric_count_session input rest _
        (genStep_session s { input with content := c } r)
      simp [runGenericCalls, List.count_cons, hflag]
      exact hrest
    | false =>
      obtain ⟨h1, h2, h3⟩ :=
        genStep_uninitialized s { input with content := c } r hc
      have hall := runGeneric_allFalse input rest _ h2 h3
      have hcnt : List.count true (runGenericCalls
          (genericGenerateFlashcards s { input with content := c }
            (some r)).state input rest).2 = 0 := by
        rw [List.count_eq_zero]
        intro hmem
        exact absurd (hall true hmem) (by simp)
      simp [runGenericCalls, List.count_cons, h1, hcnt]

/-! ## Conversation key derivation (C9) -/

theorem charListLe_refl : ∀ a : List Char, charListLe a a = true := by
  intro a
  induction a with
  | nil => rfl
  | cons x xs ih => simp [charListLe, ih]

theorem charListLe_total : ∀ a b : List Char,
    charListLe a b = true ∨ charListLe b a = true := by
  intro a
  induction a with
  | nil => intro b; left; rfl
  | cons x xs ih =>
    intro b
    cases b with
    | nil => right; rfl
    | cons y ys =>
      by_cases h1 : x.toNat < y.toNat
      · left; simp [charListLe, h1]
      · by_cases h2 : y.toNat < x.toNat
        · right; simp [charListLe, h2]
        · rcases ih ys with h | h
          · left; simp [charListLe, h1, h2, h]
          · right; simp [charListLe, h1, h2, h]

theorem charListLe_trans : ∀ a b c : List Char,
    charListLe a b = true → charListLe b c = true →
    charListLe a c = true := by
  intro a
  induction a with
  | nil => intro b c _ _; rfl
  | cons x xs ih =>
    intro b c hab hbc
    cases b with
    | nil => simp [charListLe] at hab
    | cons y ys =>
      cases c with
      | nil => simp [charListLe] at hbc
      | cons z zs =>
        simp only [charListLe] at hab hbc ⊢
        by_cases hxy : x.toNat < y.toNat
        · by_cases hyz : y.toNat < z.toNat
          · simp [show x.toNat < z.toNat by omega]
          · by_cases hzy : z.toNat < y.toNat
            · simp [hyz, hzy] at hbc
            · simp [show x.toNat < z.toNat by omega]
        · by_cases hyx : y.toNat < x.toNat
          · simp [hxy, hyx] at hab
          · by_cases hyz : y.toNat < z.toNat
            · simp [show x.toNat < z.toNat by omega]
            · by_cases hzy : z.toNat < y.toNat
              · simp [hyz, hzy] at hbc
              · have hxz : ¬ x.toNat < z.toNat := by omega
                have hzx : ¬ z.toNat < x.toNat := by omega
                simp only [if_neg hxy, if_neg hyx] at hab
                simp only [if_neg hyz, if_neg hzy] at hbc
                simp only [if_neg hxz, if_neg hzx]
                exact ih ys zs hab hbc

theorem charListLe_antisymm : ∀ a b : List Char,
    charListLe a b = true → charListLe b a = true → a = b := by
  intro a
  induction a with
  | nil =>
    intro b _ hba
    cases b with
    | nil => rfl
    | cons y ys => simp [charListLe] at hba
  | cons x xs ih =>
    intro b hab hba
    cases b with
    | nil => simp [charListLe] at hab
    | cons y ys =>
      simp only [charListLe] at hab hba
      by_cases hxy : x.toNat < y.toNat
      · simp [hxy, show ¬ y.toNat < x.toNat by omega] at hba
      · by_cases hyx : y.toNat < x.toNat
        · simp [hxy, hyx] at hab
        · have heq : x = y := by
            apply Char.ext
            have : x.toNat = y.toNat := by omega
            unfold Char.toNat at this
            exact UInt32.toNat.inj this
          subst heq
          simp only [if_neg hxy, if_neg hyx] at hab hba
          rw [ih ys hab hba]

instance : IsTotal (String × String) entryLe :=
  ⟨fun a b => charListLe_total (entrySortKey a).data (entrySortKey b).data⟩

instance : IsTrans (String × String) entryLe :=
  ⟨fun a b c => charListLe_trans (entrySortKey a).data (entrySortKey b).data
    (entrySortKey c).data⟩

theorem entryLe_antisymm_key {a b : String × String} (hab : entryLe a b)
    (hba : entryLe b a) : entrySortKey a = entrySortKey b := by
  have hd := charListLe_antisymm (entrySortKey a).data (entrySortKey b).data
    hab hba
  cases hk : entrySortKey a with
  | mk da =>
    cases hk' : entrySortKey b with
    | mk db =>
      rw [hk, hk'] at hd
      simp only at hd
      rw [hd]

theorem entryLe_refl (a : String × String) : entryLe a a :=
  charListLe_refl (entrySortKey a).data

/- Two sorted permutations of each other with pairwise-distinct sort
keys are equal. -/
theorem sorted_perm_nodupkey_eq :
    ∀ {l₁ l₂ : List (String × String)}, l₁.Perm l₂ →
      l₁.Sorted entryLe → l₂.Sorted entryLe →
      (l₁.map entrySortKey).Nodup → l₁ = l₂ := by
  intro l₁
  induction l₁ with
  | nil =>
    intro l₂ hp _ _ _
    exact (hp.nil_eq).symm ▸ rfl
  | cons a t₁ ih =>
    intro l₂ hp hs₁ hs₂ hnd
    cases l₂ with
    | nil => exact absurd hp.symm.nil_eq (by simp)
    | cons b t₂ =>
      have ha : a ∈ b :: t₂ := hp.subset (List.mem_cons_self a t₁)
      have hb : b ∈ a :: t₁ := hp.symm.subset (List.mem_cons_self b t₂)
      have hs₁' := List.sorted_cons.mp hs₁
      have hs₂' := List.sorted_cons.mp hs₂
      have hba : entryLe b a := by
        rcases List.mem_cons.mp ha with h | h
        · rw [h]; exact entryLe_refl b
        · exact hs₂'.1 a h
      have hab : entryLe a b := by
        rcases List.mem_cons.mp hb with h | h
        · rw [h]; exact entryLe_refl a
        · exact hs₁'.1 b h
      have hkey := entryLe_antisymm_key hab hba
      rw [List.map_cons] at hnd
      have hnd' := List.nodup_cons.mp hnd
      have hbeq : b = a := by
        rcases List.mem_cons.mp hb with h | h
        · exact h
        · exfalso
          apply hnd'.1
          rw [hkey]
          exact List.mem_map_of_mem entrySortKey h
      subst hbeq
      have hp' := hp.cons_inv
      rw [ih hp' hs₁'.2 hs₂'.2 hnd'.2]

theorem sortEntries_perm_eq (l₁ l₂ : List (String × String))
    (hp : l₁.Perm l₂) (hnd : (l₁.map entrySortKey).Nodup) :
    sortEntries l₁ = sortEntries l₂ := by
  apply sorted_perm_nodupkey_eq
  · exact (List.perm_insertionSort entryLe l₁).trans
      (hp.trans (List.perm_insertionSort entryLe l₂).symm)
  · exact List.sorted_insertionSort entryLe l₁
  · exact List.sorted_insertionSort entryLe l₂
  · exact (((List.perm_insertionSort entryLe l₁).map
      entrySortKey).nodup_iff).mpr hnd

theorem sha256Round_length (st : List Nat) (kw : Nat × Nat)
    (h : st.length = 8) : (sha256Round st kw).length = 8 := by
  obtain ⟨x1, st, rfl⟩ := List.exists_of_length_succ st (show st.length = 7 + 1 by omega)
  simp only [List.length_cons] at h
  obtain ⟨x2, st, rfl⟩ := List.exists_of_length_succ st (show st.length = 6 + 1 by omega)
  simp only [List.length_cons] at h
  obtain ⟨x3, st, rfl⟩ := List.exists_of_length_succ st (show st.length = 5 + 1 by omega)
  simp only [List.length_cons] at h
  obtain ⟨x4, st, rfl⟩ := List.exists_of_length_succ st (show st.length = 4 + 1 by omega)
  simp only [List.length_cons] at h
  obtain ⟨x5, st, rfl⟩ := List.exists_of_length_succ st (show st.length = 3 + 1 by omega)
  simp only [List.length_cons] at h
  obtain ⟨x6, st, rfl⟩ := List.exists_of_length_succ st (show st.length = 2 + 1 by omega)
  simp only [List.length_cons] at h
  obtain ⟨x7, st, rfl⟩ := List.exists_of_length_succ st (show st.length = 1 + 1 by omega)
  simp only [List.length_cons] at h
  obtain ⟨x8, st, rfl⟩ := List.exists_of_length_succ st (show st.length = 0 + 1 by omega)
  simp only [List.length_cons] at h
  have hnil : st = [] := List.eq_nil_of_length_eq_zero (by omega)
  subst hnil
  rfl

theorem foldl_sha256Round_length (l : List (Nat × Nat)) :
    ∀ st : List Nat, st.length = 8 →
      (l.foldl sha256Round st).length = 8 := by
  induction l with
  | nil => intro st h; exact h
  | cons kw rest ih =>
    intro st h
    exact ih _ (sha256Round_length st kw h)

theorem sha256Block_length (h block : List Nat) (hh : h.length = 8) :
    (sha256Block h block).length = 8 := by
  unfold sha256Block
  rw [List.length_map, List.length_zip, hh,
    foldl_sha256Round_length _ h hh]
  rfl

theorem foldl_sha256Block_length (bs : List (List Nat)) :
    ∀ h : List Nat, h.length = 8 →
      (bs.foldl sha256Block h).length = 8 := by
  induction bs with
  | nil => intro h hh; exact hh
  | cons b rest ih =>
    intro h hh
    exact ih _ (sha256Block_length h b hh)

theorem sha256Words_length (msg : List Nat) :
    (sha256Words msg).length = 8 :=
  foldl_sha256Block_length _ sha256H0 rfl

theorem word32Hex_length (w : Nat) : (word32Hex w).length = 8 := by
  simp [word32Hex]

theorem sha256Hex_length (s : String) : (sha256Hex s).length = 64 := by
  show ((sha256Words (utf8Encode s)).map word32Hex).flatten.length = 64
  have h8 := sha256Words_length (utf8Encode s)
  obtain ⟨w1, ws, hws⟩ :=
    List.exists_of_length_succ (sha256Words (utf8Encode s)) (show _ = 7 + 1 from h8)
  rw [hws] at h8 ⊢
  simp only [List.length_cons] at h8
  obtain ⟨w2, ws, rfl⟩ := List.exists_of_length_succ ws (show ws.length = 6 + 1 by omega)
  simp only [List.length_cons] at h8
  obtain ⟨w3, ws, rfl⟩ := List.exists_of_length_succ ws (show ws.length = 5 + 1 by omega)
  simp only [List.length_cons] at h8
  obtain ⟨w4, ws, rfl⟩ := List.exists_of_length_succ ws (show ws.length = 4 + 1 by omega)
  simp only [List.length_cons] at h8
  obtain ⟨w5, ws, rfl⟩ := List.exists_of_length_succ ws (show ws.length = 3 + 1 by omega)
  simp only [List.length_cons] at h8
  obtain ⟨w6, ws, rfl⟩ := List.exists_of_length_succ ws (show ws.length = 2 + 1 by omega)
  simp only [List.length_cons] at h8
  obtain ⟨w7, ws, rfl⟩ := List.exists_of_length_succ ws (show ws.length = 1 + 1 by omega)
  simp only [List.length_cons] at h8
  obtain ⟨w8, ws, rfl⟩ := List.exists_of_length_succ ws (show ws.length = 0 + 1 by omega)
  simp only [List.length_cons] at h8
  have hnil : ws = [] := List.eq_nil_of_length_eq_zero (by omega)
  subst hnil
  simp [word32Hex_length]

/-- C9 (amended): the conversation key is a pure function of the system
instruction and the metadata entry list; two metadata enumerations that
are permutations of each other yield the identical 16-character key
PROVIDED the default-comparator strings `k + ',' + v` of the entries are
pairwise distinct (in particular whenever keys and values contain no
comma).  Without that proviso the stable sort can leave colliding
entries in enumeration order — see the counterexample. -/
theorem conversationKey_order_independent (systemInstruction : String)
    (l₁ l₂ : List (String × String)) (hp : l₁.Perm l₂)
    (hnd : (l₁.map entrySortKey).Nodup) :
    generateConversationKey systemInstruction (some l₁) =
      generateConversationKey systemInstruction (some l₂) ∧
    (generateConversationKey systemInstruction (some l₁)).length = 16 := by
  constructor
  · unfold generateConversationKey metadataStr
    simp only
    rw [sortEntries_perm_eq l₁ l₂ hp hnd]
  · show ((sha256Hex _).data.take 16).length = 16
    rw [List.length_take]
    have h64 : (sha256Hex (systemInstruction ++ "|" ++
        metadataStr (some l₁))).length = 64 := sha256Hex_length _
    simp only [String.length] at h64
    rw [h64]
    rfl

/-- C9 witness: a two-entry permutation with comma-free keys and values
gives the same key either way. -/
theorem conversationKey_order_independent_witness :
    generateConversationKey "sys" (some [("b", "2"), ("a", "1")]) =
      generateConversationKey "sys" (some [("a", "1"), ("b", "2")]) ∧
    (generateConversationKey "sys" (some [("b", "2"), ("a", "1")])).length =
      16 :=
  conversationKey_order_independent "sys" [("b", "2"), ("a", "1")]
    [("a", "1"), ("b", "2")] (List.Perm.swap _ _ _) (by decide)

/-- C9 counterexample: two metadata records with the same key-value
pairs (keys `x` and `x,`) whose entries collide under the default
comparator (`[k,v].toString()` is `x,,y` for both) keep their
enumeration order under the stable sort and hash to DIFFERENT keys. -/
theorem conversationKey_order_dependent :
    [("x", ",y"), ("x,", "y")].Perm [("x,", "y"), ("x", ",y")] ∧
    generateConversationKey "s" (some [("x", ",y"), ("x,", "y")]) ≠
      generateConversationKey "s" (some [("x,", "y"), ("x", ",y")]) := by
  constructor
  · exact List.Perm.swap _ _ _
  · decide

/-! ## Category parser (C2, C7) -/

/-- C7: whenever the cleaned response fails JSON parsing or parses to an
unexpected shape, the category parser falls back to the case-insensitive
substring scan over the RAW response text; the fallback is the total
filter over the vocabulary, and it returns `[]` when no entry occurs. -/
theorem categoriesFallback_substring_scan (t : String) (V : List String)
    (h : categoriesFallsBack t = true) :
    parseAndValidateCategoriesResponse t V = extractCategoriesFromText t V ∧
    extractCategoriesFromText t V =
      V.filter (fun cat => jsIncludes (jsToLowerCase t) (jsToLowerCase cat)) ∧
    ((∀ cat ∈ V, jsIncludes (jsToLowerCase t) (jsToLowerCase cat) = false) →
      extractCategoriesFromText t V = []) := by
  refine ⟨?_, rfl, ?_⟩
  · unfold categoriesFallsBack at h
    unfold parseAndValidateCategoriesResponse
    cases hp : jsonParse (cleanResponseText t) with
    | none => rfl
    | some v =>
      rw [hp] at h
      cases v with
      | null => rfl
      | bool b => rfl
      | num lex => rfl
      | str s => rfl
      | arr items => simp at h
      | obj fields =>
        dsimp only at h ⊢
        cases hg : jsGetField (Json.obj fields) "categories" with
        | none => rfl
        | some w =>
          rw [hg] at h
          cases w with
          | arr cats => simp at h
          | null => rfl
          | bool b => rfl
          | num lex => rfl
          | str s => rfl
          | obj f2 => rfl
  · intro hall
    unfold extractCategoriesFromText
    rw [List.filter_eq_nil_iff]
    intro cat hcat
    simp [hall cat hcat]

/-- C7 witness. -/
theorem categoriesFallback_substring_scan_witness :
    parseAndValidateCategoriesResponse "zzz" ["a"] =
      extractCategoriesFromText "zzz" ["a"] ∧
    extractCategoriesFromText "zzz" ["a"] =
      (["a"].filter fun cat =>
        jsIncludes (jsToLowerCase "zzz") (jsToLowerCase cat)) ∧
    ((∀ cat ∈ ["a"],
        jsIncludes (jsToLowerCase "zzz") (jsToLowerCase cat) = false) →
      extractCategoriesFromText "zzz" ["a"] = []) :=
  categoriesFallback_substring_scan "zzz" ["a"] (by decide)

/-- C2 (amended): on a response that parses to an object with an array
`categories` property, or to a bare array, the parser returns exactly
the sub-sequence of elements that are strings whose TRIMMED value is a
vocabulary member — but each kept element is returned verbatim
(untrimmed), so only the TRIM of every result element is guaranteed to
be in the vocabulary. -/
theorem categoriesParser_filters_vocabulary (t : String) (V : List String)
    (elems : List Json)
    (h : jsonParse (cleanResponseText t) = some (Json.arr elems) ∨
      ∃ fields, jsonParse (cleanResponseText t) = some (Json.obj fields) ∧
        jsGetField (Json.obj fields) "categories" = some (Json.arr elems)) :
    parseAndValidateCategoriesResponse t V = filterValidCategories elems V ∧
    ∀ x ∈ parseAndValidateCategoriesResponse t V, jsTrim x ∈ V := by
  have heq : parseAndValidateCategoriesResponse t V =
      filterValidCategories elems V := by
    unfold parseAndValidateCategoriesResponse
    rcases h with hp | ⟨fields, hp, hg⟩
    · rw [hp]
    · rw [hp]
      simp only
      rw [hg]
  refine ⟨heq, ?_⟩
  rw [heq]
  intro x hx
  unfold filterValidCategories at hx
  obtain ⟨j, hj, hfx⟩ := List.mem_filterMap.mp hx
  cases j with
  | str s =>
    simp only at hfx
    by_cases hc : V.contains (jsTrim s) = true
    · rw [if_pos hc] at hfx
      cases hfx
      exact contains_iff_memL.mp hc
    · simp only [Bool.not_eq_true] at hc
      rw [hc] at hfx
      simp at hfx
  | null => simp at hfx
  | bool b => simp at hfx
  | num lex => simp at hfx
  | arr items => simp at hfx
  | obj fields => simp at hfx

/-- C2 witness: a bare-array response keeps the matching element. -/
theorem categoriesParser_filters_vocabulary_witness :
    parseAndValidateCategoriesResponse "[\"a\"]" ["a"] =
      filterValidCategories [Json.str "a"] ["a"] ∧
    ∀ x ∈ parseAndValidateCategoriesResponse "[\"a\"]" ["a"],
      jsTrim x ∈ ["a"] :=
  categoriesParser_filters_vocabulary "[\"a\"]" ["a"] [Json.str "a"]
    (Or.inl (by rfl))

/-- C2 counterexample: with vocabulary `["a"]` and response `[" a "]`
the parser keeps the element because its trim is in the vocabulary, but
returns it UNTRIMMED, so the result is not a subset of the
vocabulary. -/
theorem categoriesParser_returns_untrimmed :
    parseAndValidateCategoriesResponse "[\" a \"]" ["a"] = [" a "] ∧
    " a " ∉ ["a"] := by
  constructor
  · rfl
  · decide

/-! ## Flashcard parser fallbacks (C3) -/

theorem flashcardsBody_throws (t : String) (f : Json → Bool)
    (h : flashcardsThrows t = true) :
    flashcardsBody t f = Except.error () := by
  unfold flashcardsThrows at h
  unfold flashcardsBody
  cases hp : jsonParse (cleanResponseText t) with
  | none => rfl
  | some v =>
    rw [hp] at h
    cases v with
    | null => rfl
    | bool b => rfl
    | num lex => rfl
    | str s => rfl
    | arr items => rfl
    | obj fields =>
      dsimp only at h ⊢
      cases hg : jsGetField (Json.obj fields) "flashcards" with
      | none => rfl
      | some w =>
        rw [hg] at h
        cases w with
        | arr cards => simp at h
        | null => rfl
        | bool b => rfl
        | num lex => rfl
        | str s => rfl
        | obj f2 => rfl

/-- C3 (amended): whenever JSON parsing throws or the `flashcards`
property is absent or not an array, or zero cards survive the filter,
the GENERIC parser returns a single synthetic card of type `"Error"`
and never throws — but the philosophy BASE parser returns the empty
list in the same situations. -/
theorem flashcardsParser_fallback (t : String) (ct : Option (List String)) :
    fallbackParseErrorCard.type = "Error" ∧
    fallbackNoValidCards.type = "Error" ∧
    (flashcardsThrows t = true →
      parseFlashcardsResponseGeneric t ct = [fallbackParseErrorCard] ∧
      parseFlashcardsResponseBase t = []) ∧
    (∀ (p : Json) (cards : List Json),
      jsonParse (cleanResponseText t) = some p →
      jsGetField p "flashcards" = some (Json.arr cards) →
      (cards.filter (cardFilterGeneric ct) = [] →
        parseFlashcardsResponseGeneric t ct = [fallbackNoValidCards]) ∧
      (cards.filter hasBasicStructure = [] →
        parseFlashcardsResponseBase t = [])) := by
  refine ⟨rfl, rfl, ?_, ?_⟩
  · intro h
    constructor
    · unfold parseFlashcardsResponseGeneric
      rw [flashcardsBody_throws t _ h]
    · unfold parseFlashcardsResponseBase
      rw [flashcardsBody_throws t _ h]
  · intro p cards hp hg
    constructor
    · intro hfilt
      unfold parseFlashcardsResponseGeneric flashcardsBody
      rw [hp]
      cases p with
      | null => simp [jsGetField] at hg
      | bool b => simp [jsGetField] at hg
      | num lex => simp [jsGetField] at hg
      | str s => simp [jsGetField] at hg
      | arr items => simp [jsGetField] at hg
      | obj fields =>
        dsimp only
        rw [hg]
        dsimp only
        rw [hfilt]
        rfl
    · intro hfilt
      unfold parseFlashcardsResponseBase flashcardsBody
      rw [hp]
      cases p with
      | null => simp [jsGetField] at hg
      | bool b => simp [jsGetField] at hg
      | num lex => simp [jsGetField] at hg
      | str s => simp [jsGetField] at hg
      | arr items => simp [jsGetField] at hg
      | obj fields =>
        dsimp only
        rw [hg]
        dsimp only
        rw [hfilt]
        rfl

/-- C3 witness: the literal response `"not json"` yields the single
`"Error"` card from the generic parser and the empty list from the
base parser. -/
theorem flashcardsParser_fallback_witness :
    parseFlashcardsResponseGeneric "not json" none =
      [fallbackParseErrorCard] ∧
    parseFlashcardsResponseBase "not json" = [] :=
  (flashcardsParser_fallback "not json" none).2.2.1 (by decide)

/-- C3 counterexample: the philosophy base parser
(`PhilosophyFlashcardsService.parseFlashcardsResponse`, one of the two
parsers the claim covers) returns the EMPTY list — not a one-card
`"Error"` list — when the response is not JSON. -/
theorem baseParser_returns_empty_list :
    parseFlashcardsResponseBase "not json" = [] ∧
    (parseFlashcardsResponseBase "not json").length = 0 := ⟨rfl, rfl⟩

/-! ## Card-type vocabulary membership (C8) -/

theorem mem_mapCardsGeneric :
    ∀ (l : List Json) (l' : List Flashcard),
      mapCardsGeneric l = Except.ok l' → ∀ c ∈ l',
      ∃ x ∈ l, mapCardGeneric x = Except.ok c := by
  intro l
  induction l with
  | nil =>
    intro l' h c hc
    unfold mapCardsGeneric at h
    cases h
    cases hc
  | cons a rest ih =>
    intro l' h c hc
    unfold mapCardsGeneric at h
    cases ha : mapCardGeneric a with
    | error e => rw [ha] at h; simp at h
    | ok fc =>
      rw [ha] at h
      cases hr : mapCardsGeneric rest with
      | error e => rw [hr] at h; simp at h
      | ok fcs =>
        rw [hr] at h
        simp only at h
        cases h
        rcases List.mem_cons.mp hc with hceq | hcm
        · exact ⟨a, List.mem_cons_self a rest, by rw [ha, hceq]⟩
        · obtain ⟨x, hx1, hx2⟩ := ih fcs hr c hcm
          exact ⟨x, List.mem_cons_of_mem a hx1, hx2⟩

theorem mapCardGeneric_type (x : Json) (c : Flashcard)
    (h : mapCardGeneric x = Except.ok c) :
    c.type = getStrField x "type" := by
  unfold mapCardGeneric at h
  cases hcl : jsGetField x "context_logic" with
  | none =>
    rw [hcl] at h
    cases h
    rfl
  | some w =>
    rw [hcl] at h
    cases w with
    | null => cases h; rfl
    | str s => cases h; rfl
    | bool b => simp at h
    | num lex => simp at h
    | arr items => simp at h
    | obj fields => simp at h

theorem flashcardsBody_ok_mem (t : String) (f : Json → Bool)
    (lst : List Flashcard) (hb : flashcardsBody t f = Except.ok lst)
    (c : Flashcard) (hc : c ∈ lst) :
    ∃ x, f x = true ∧ mapCardGeneric x = Except.ok c := by
  unfold flashcardsBody at hb
  cases hp : jsonParse (cleanResponseText t) with
  | none => rw [hp] at hb; simp at hb
  | some v =>
    rw [hp] at hb
    cases v with
    | null => simp at hb
    | bool b => simp [jsGetField] at hb
    | num lex => simp [jsGetField] at hb
    | str s => simp [jsGetField] at hb
    | arr items => simp [jsGetField] at hb
    | obj fields =>
      dsimp only at hb
      cases hg : jsGetField (Json.obj fields) "flashcards" with
      | none => rw [hg] at hb; simp at hb
      | some w =>
        rw [hg] at hb
        cases w with
        | arr cards =>
          obtain ⟨x, hx1, hx2⟩ :=
            mem_mapCardsGeneric (cards.filter f) lst hb c hc
          exact ⟨x, (List.mem_filter.mp hx1).2, hx2⟩
        | null => simp at hb
        | bool b => simp at hb
        | num lex => simp at hb
        | str s => simp at hb
        | obj f2 => simp at hb

theorem cardFilterGeneric_contains (l : List String) (hl : l ≠ [])
    (j : Json) (h : cardFilterGeneric (some l) j = true) :
    l.contains (getStrField j "type") = true := by
  unfold cardFilterGeneric at h
  dsimp only at h
  by_cases hb : hasBasicStructure j = true
  · rw [if_pos ⟨hb, hl⟩] at h
    exact h
  · rw [if_neg fun hh => hb hh.1] at h
    exact absurd h hb

theorem cardFilterPolitical_contains (j : Json)
    (h : cardFilterPolitical j = true) :
    politicalCardTypes.contains (getStrField j "type") = true := by
  cases j with
  | obj fields =>
    unfold cardFilterPolitical at h
    simp only [Bool.and_eq_true] at h
    exact h.1.1.1.2
  | null => simp [cardFilterPolitical] at h
  | bool b => simp [cardFilterPolitical] at h
  | num lex => simp [cardFilterPolitical] at h
  | str s => simp [cardFilterPolitical] at h
  | arr items => simp [cardFilterPolitical] at h

/-- C8 (amended): every card produced by the generic parser under a
non-empty caller-supplied `cardTypes` vocabulary either has a type in
that vocabulary or is one of the two synthetic `"Error"` fallbacks;
every card produced by the political parser (fallbacks included) has a
type in `{Concept, Argument, Context, Contrast}`.  (The claimed
non-emptiness of `front`/`back` after trimming is NOT enforced — see
the counterexample.) -/
theorem flashcardType_vocabulary (t : String) (l : List String)
    (input : PhilInput) (c : Flashcard) :
    (l ≠ [] → c ∈ parseFlashcardsResponseGeneric t (some l) →
      c.type ∈ l ∨ c = fallbackNoValidCards ∨ c = fallbackParseErrorCard) ∧
    (c ∈ parseFlashcardsResponsePolitical t input →
      c.type ∈ politicalCardTypes) := by
  constructor
  · intro hl hc
    unfold parseFlashcardsResponseGeneric at hc
    cases hb : flashcardsBody t (cardFilterGeneric (some l)) with
    | error e =>
      rw [hb] at hc
      right; right
      exact List.mem_singleton.mp hc
    | ok lst =>
      rw [hb] at hc
      cases lst with
      | nil =>
        right; left
        exact List.mem_singleton.mp hc
      | cons x xs =>
        obtain ⟨j, hjf, hjok⟩ := flashcardsBody_ok_mem t _ _ hb c hc
        left
        rw [mapCardGeneric_type j c hjok]
        exact contains_iff_memL.mp (cardFilterGeneric_contains l hl j hjf)
  · intro hc
    unfold parseFlashcardsResponsePolitical at hc
    cases hp : jsonParse (cleanResponseText t) with
    | none =>
      rw [hp] at hc
      rw [List.mem_singleton.mp hc]
      exact List.mem_cons_self _ _
    | some v =>
      rw [hp] at hc
      cases v with
      | null => rw [List.mem_singleton.mp hc]; exact List.mem_cons_self _ _
      | bool b => rw [List.mem_singleton.mp hc]; exact List.mem_cons_self _ _
      | num lex => rw [List.mem_singleton.mp hc]; exact List.mem_cons_self _ _
      | str s => rw [List.mem_singleton.mp hc]; exact List.mem_cons_self _ _
      | arr items => rw [List.mem_singleton.mp hc]; exact List.mem_cons_self _ _
      | obj fields =>
        dsimp only at hc
        cases hg : jsGetField (Json.obj fields) "flashcards" with
        | none =>
          rw [hg] at hc
          rw [List.mem_singleton.mp hc]
          exact List.mem_cons_self _ _
        | some w =>
          rw [hg] at hc
          cases w with
          | null => rw [List.mem_singleton.mp hc]; exact List.mem_cons_self _ _
          | bool b => rw [List.mem_singleton.mp hc]; exact List.mem_cons_self _ _
          | num lex => rw [List.mem_singleton.mp hc]; exact List.mem_cons_self _ _
          | str s => rw [List.mem_singleton.mp hc]; exact List.mem_cons_self _ _
          | obj f2 => rw [List.mem_singleton.mp hc]; exact List.mem_cons_self _ _
          | arr cards =>
            dsimp only at hc
            cases hm : (cards.filter cardFilterPolitical).map
                (mapCardPolitical input) with
            | nil =>
              rw [hm] at hc
              rw [List.mem_singleton.mp hc]
              exact List.mem_cons_self _ _
            | cons x xs =>
              rw [hm] at hc
              dsimp only at hc
              rw [← hm] at hc
              obtain ⟨j, hj1, hj2⟩ := List.mem_map.mp hc
              have hjf := (List.mem_filter.mp hj1).2
              have htype : c.type = getStrField j "type" := by
                rw [← hj2]
                rfl
              rw [htype]
              exact contains_iff_memL.mp (cardFilterPolitical_contains j hjf)

/-- C8 witness. -/
theorem flashcardType_vocabulary_witness :
    ((⟨"T", "f", "b", none, none⟩ : Flashcard).type ∈ ["T"] ∨
      (⟨"T", "f", "b", none, none⟩ : Flashcard) = fallbackNoValidCards ∨
      (⟨"T", "f", "b", none, none⟩ : Flashcard) = fallbackParseErrorCard) ∧
    (politicalFallbackParseError ⟨"p", "H", "W", none⟩).type ∈
      politicalCardTypes :=
  ⟨(flashcardType_vocabulary
      "\x7b\"flashcards\":[\x7b\"type\":\"T\",\"front\":\"f\",\"back\":\"b\"\x7d]\x7d"
      ["T"] ⟨"p", "H", "W", none⟩ ⟨"T", "f", "b", none, none⟩).1
      (by decide) (by decide),
   (flashcardType_vocabulary "not json" ["T"] ⟨"p", "H", "W", none⟩
      (politicalFallbackParseError ⟨"p", "H", "W", none⟩)).2 (by decide)⟩

/-- C8 counterexample: a card whose `front` is whitespace passes the
generic filter (only `typeof === 'string'` and the type vocabulary are
checked) and is returned with `front` trimmed to the EMPTY string, so
parser output cards are not guaranteed non-empty after trimming. -/
theorem flashcardFilter_allows_blank_front :
    (parseFlashcardsResponseGeneric
        "\x7b\"flashcards\":[\x7b\"type\":\"T\",\"front\":\" \",\"back\":\"b\"\x7d]\x7d"
        (some ["T"])).map Flashcard.front = [""] ∧
    (parseFlashcardsResponseGeneric
        "\x7b\"flashcards\":[\x7b\"type\":\"T\",\"front\":\" \",\"back\":\"b\"\x7d]\x7d"
        (some ["T"])).map Flashcard.type = ["T"] := ⟨rfl, rfl⟩

/-! ## The response cleaner (C6) -/

theorem dropWhile_idem (p : Char → Bool) (cs : List Char) :
    (cs.dropWhile p).dropWhile p = cs.dropWhile p := by
  induction cs with
  | nil => rfl
  | cons a t ih =>
    rw [List.dropWhile_cons]
    split
    · exact ih
    · next h => rw [List.dropWhile_cons, if_neg h]

theorem head_dropWhile_false (p : Char → Bool) :
    ∀ (cs : List Char) (a : Char) (t : List Char),
      cs.dropWhile p = a :: t → p a = false := by
  intro cs
  induction cs with
  | nil => intro a t h; simp at h
  | cons x xs ih =>
    intro a t h
    rw [List.dropWhile_cons] at h
    split at h
    · exact ih a t h
    · next hx =>
      cases h
      simpa using hx

theorem jsTrimLeftL_idem (cs : List Char) :
    jsTrimLeftL (jsTrimLeftL cs) = jsTrimLeftL cs :=
  dropWhile_idem _ _

theorem jsTrimRightL_idem (cs : List Char) :
    jsTrimRightL (jsTrimRightL cs) = jsTrimRightL cs := by
  unfold jsTrimRightL
  rw [List.reverse_reverse, dropWhile_idem]

theorem jsTrimRightL_prefix (cs : List Char) : jsTrimRightL cs <+: cs := by
  unfold jsTrimRightL
  have h := List.reverse_prefix.mpr
    (List.dropWhile_suffix (l := cs.reverse) jsWhitespaceChar)
  simpa using h

theorem jsTrimLeftL_of_trimmed (cs : List Char) :
    jsTrimLeftL (jsTrimRightL (jsTrimLeftL cs)) =
      jsTrimRightL (jsTrimLeftL cs) := by
  cases hR : jsTrimRightL (jsTrimLeftL cs) with
  | nil => rfl
  | cons a t =>
    have hpre : jsTrimRightL (jsTrimLeftL cs) <+: jsTrimLeftL cs :=
      jsTrimRightL_prefix _
    rw [hR] at hpre
    obtain ⟨rest, hrest⟩ := hpre
    have hhead : jsWhitespaceChar a = false := by
      apply head_dropWhile_false jsWhitespaceChar cs a (t ++ rest)
      show jsTrimLeftL cs = a :: (t ++ rest)
      rw [← hrest]
      rfl
    unfold jsTrimLeftL
    rw [List.dropWhile_cons, if_neg (by simp [hhead])]

theorem jsTrimL_idem (cs : List Char) : jsTrimL (jsTrimL cs) = jsTrimL cs := by
  unfold jsTrimL
  rw [jsTrimLeftL_of_trimmed, jsTrimRightL_idem]

theorem jsTrim_idem (s : String) : jsTrim (jsTrim s) = jsTrim s :=
  congrArg String.mk (jsTrimL_idem s.data)

theorem startsWith_json_imp (s : String)
    (h : jsStartsWith s "```json" = true) : jsStartsWith s "```" = true := by
  unfold jsStartsWith at h ⊢
  rw [List.isPrefixOf_iff_prefix] at h ⊢
  exact List.IsPrefix.trans ⟨['j', 's', 'o', 'n'], rfl⟩ h

theorem jsTrimLeftL_cons_nonws (a : Char) (xs : List Char)
    (h : jsWhitespaceChar a = false) : jsTrimLeftL (a :: xs) = a :: xs := by
  unfold jsTrimLeftL
  rw [List.dropWhile_cons, if_neg (by simp [h])]

theorem jsTrimRightL_append_nonws (xs : List Char) (c : Char)
    (h : jsWhitespaceChar c = false) :
    jsTrimRightL (xs ++ [c]) = xs ++ [c] := by
  unfold jsTrimRightL
  rw [List.reverse_append]
  show ((c :: xs.reverse).dropWhile jsWhitespaceChar).reverse = xs ++ [c]
  rw [List.dropWhile_cons, if_neg (by simp [h])]
  simp

theorem jsTrimRightL_append_ws (xs : List Char) (c : Char)
    (h : jsWhitespaceChar c = true) :
    jsTrimRightL (xs ++ [c]) = jsTrimRightL xs := by
  unfold jsTrimRightL
  rw [List.reverse_append]
  show ((c :: xs.reverse).dropWhile jsWhitespaceChar).reverse = _
  rw [List.dropWhile_cons, if_pos (by simp [h])]

theorem jsTrimLeftL_cons_ws (a : Char) (xs : List Char)
    (h : jsWhitespaceChar a = true) :
    jsTrimLeftL (a :: xs) = jsTrimLeftL xs := by
  unfold jsTrimLeftL
  rw [List.dropWhile_cons, if_pos (by simp [h])]

theorem isPrefixOf_bbb_append (l rest : List Char)
    (h : List.isPrefixOf ['`', '`', '`'] l = false) :
    List.isPrefixOf ['`', '`', '`'] (l ++ '\n' :: rest) = false := by
  have hnb : ('`' == '\n') = false := by decide
  rcases l with _ | ⟨a, _ | ⟨c, _ | ⟨d, tt⟩⟩⟩
  · simp [List.isPrefixOf, hnb]
  · simp [List.isPrefixOf, hnb]
  · simp [List.isPrefixOf, hnb]
  · simp only [List.cons_append, List.isPrefixOf] at h ⊢
    simpa using (by simpa using h)

/-- C6 (amended): `cleanResponseText` returns the plain trim whenever
the trimmed text has no leading and no trailing fence; it returns the
trimmed body for a fence wrap whose language tag is `json` (provided
the body does not itself lead with a fence, which the cleaner would
strip a second time) and for an untagged fence wrap.  For any OTHER
language tag only the backticks are removed and the tag itself remains
in the output — see the counterexample. -/
theorem cleanResponseText_fences (t b : String)
    (h1 : jsStartsWith (jsTrim t) "```" = false)
    (h2 : jsEndsWith (jsTrim t) "```" = false)
    (hb : jsStartsWith ⟨jsTrimLeftL b.data⟩ "```" = false) :
    cleanResponseText t = jsTrim t ∧
    cleanResponseText ("```json\n" ++ b ++ "\n```") = jsTrim b ∧
    cleanResponseText ("```\n" ++ b ++ "\n```") = jsTrim b := by
  refine ⟨?_, ?_, ?_⟩
  · have h0 : jsStartsWith (jsTrim t) "```json" = false := by
      cases hx : jsStartsWith (jsTrim t) "```json" with
      | false => rfl
      | true => rw [startsWith_json_imp _ hx] at h1; cases h1
    unfold cleanResponseText
    simp only [h0, h1, h2, Bool.false_eq_true, if_false]
    exact jsTrim_idem t
  · have hdata : ("```json\n" ++ b ++ "\n```").data =
        '`' :: '`' :: '`' :: 'j' :: 's' :: 'o' :: 'n' :: '\n' ::
          (b.data ++ ['\n', '`', '`', '`']) := by
      rw [String.data_append, String.data_append]
      show ('`' :: '`' :: '`' :: 'j' :: 's' :: 'o' :: 'n' :: '\n' :: []) ++
        b.data ++ ('\n' :: '`' :: '`' :: '`' :: []) = _
      simp
    have hRform : ("```json\n" ++ b ++ "\n```").data =
        ('`' :: '`' :: '`' :: 'j' :: 's' :: 'o' :: 'n' :: '\n' ::
          (b.data ++ ['\n', '`', '`'])) ++ ['`'] := by
      rw [hdata]
      simp
    have htrim : jsTrim ("```json\n" ++ b ++ "\n```") =
        "```json\n" ++ b ++ "\n```" := by
      show (⟨jsTrimL ("```json\n" ++ b ++ "\n```").data⟩ : String) = _
      unfold jsTrimL
      rw [hdata, jsTrimLeftL_cons_nonws _ _ (by decide), ← hdata, hRform,
        jsTrimRightL_append_nonws _ _ (by decide), ← hRform]
    have hstarts : jsStartsWith ("```json\n" ++ b ++ "\n```") "```json" =
        true := by
      unfold jsStartsWith
      rw [List.isPrefixOf_iff_prefix]
      exact ⟨'\n' :: (b.data ++ ['\n', '`', '`', '`']), by rw [hdata]; rfl⟩
    have hdrop : ("```json\n" ++ b ++ "\n```").data.drop 7 =
        '\n' :: (b.data ++ ['\n', '`', '`', '`']) := by
      rw [hdata]
      rfl
    have hstrip : jsTrimLeftL (("```json\n" ++ b ++ "\n```").data.drop 7) =
        jsTrimLeftL (b.data ++ ['\n', '`', '`', '`']) := by
      rw [hdrop, jsTrimLeftL_cons_ws _ _ (by decide)]
    unfold cleanResponseText
    simp only [htrim, hstarts, if_true, hstrip]
    cases hA : jsTrimLeftL b.data with
    | nil =>
      have hc1 : jsTrimLeftL (b.data ++ ['\n', '`', '`', '`']) =
          ['`', '`', '`'] := by
        show (b.data ++ ['\n', '`', '`', '`']).dropWhile jsWhitespaceChar = _
        rw [List.dropWhile_append]
        have h1' : (b.data.dropWhile jsWhitespaceChar).isEmpty = true := by
          show (jsTrimLeftL b.data).isEmpty = true
          rw [hA]
          rfl
        rw [if_pos h1']
        rfl
      rw [hc1]
      have hbtrim : jsTrim b = "" := by
        show (⟨jsTrimL b.data⟩ : String) = ""
        unfold jsTrimL
        rw [hA]
        rfl
      rw [hbtrim]
      rfl
    | cons a t' =>
      have hc1 : jsTrimLeftL (b.data ++ ['\n', '`', '`', '`']) =
          (a :: t') ++ ['\n', '`', '`', '`'] := by
        show (b.data ++ ['\n', '`', '`', '`']).dropWhile jsWhitespaceChar = _
        rw [List.dropWhile_append]
        have h1' : (b.data.dropWhile jsWhitespaceChar).isEmpty = false := by
          show (jsTrimLeftL b.data).isEmpty = false
          rw [hA]
          rfl
        rw [h1']
        show (jsTrimLeftL b.data) ++ _ = _
        rw [hA]
      rw [hc1]
      have hb' : List.isPrefixOf ['`', '`', '`'] (a :: t') = false := by
        have hx : jsStartsWith ⟨jsTrimLeftL b.data⟩ "```" =
            List.isPrefixOf ['`', '`', '`'] (a :: t') := by
          unfold jsStartsWith
          rw [hA]
        rw [← hx]
        exact hb
      have hno : jsStartsWith ⟨(a :: t') ++ ['\n', '`', '`', '`']⟩ "```" =
          false := by
        unfold jsStartsWith
        show List.isPrefixOf ['`', '`', '`']
          ((a :: t') ++ '\n' :: ['`', '`', '`']) = false
        exact isPrefixOf_bbb_append (a :: t') _ hb'
      have hend : jsEndsWith ⟨(a :: t') ++ ['\n', '`', '`', '`']⟩ "```" =
          true := by
        unfold jsEndsWith
        rw [List.isSuffixOf_iff_suffix]
        show ['`', '`', '`'] <:+ (a :: t') ++ ['\n', '`', '`', '`']
        exact List.IsSuffix.trans ⟨['\n'], rfl⟩ (List.suffix_append _ _)
      simp only [hno, hend, if_false, if_true, Bool.false_eq_true]
      have htake : ((⟨(a :: t') ++ ['\n', '`', '`', '`']⟩ : String)).data.take
          (((⟨(a :: t') ++ ['\n', '`', '`', '`']⟩ : String)).data.length - 3) =
          (a :: t') ++ ['\n'] := by
        show ((a :: t') ++ ['\n', '`', '`', '`']).take
          (((a :: t') ++ ['\n', '`', '`', '`']).length - 3) = (a :: t') ++ ['\n']
        have hlen : ((a :: t') ++ ['\n', '`', '`', '`']).length - 3 =
            ((a :: t') ++ ['\n']).length := by
          simp only [List.length_append, List.length_cons, List.length_nil]
          omega
        have hform : (a :: t') ++ ['\n', '`', '`', '`'] =
            ((a :: t') ++ ['\n']) ++ ['`', '`', '`'] := by simp
        rw [hlen, hform, List.take_left]
      rw [htake]
      have hR1 : jsTrimRightL ((a :: t') ++ ['\n']) = jsTrimRightL (a :: t') :=
        jsTrimRightL_append_ws _ _ (by decide)
      rw [hR1, ← hA]
      exact jsTrim_idem b
  · have hdata : ("```\n" ++ b ++ "\n```").data =
        '`' :: '`' :: '`' :: '\n' :: (b.data ++ ['\n', '`', '`', '`']) := by
      rw [String.data_append, String.data_append]
      show ('`' :: '`' :: '`' :: '\n' :: []) ++ b.data ++
        ('\n' :: '`' :: '`' :: '`' :: []) = _
      simp
    have hRform : ("```\n" ++ b ++ "\n```").data =
        ('`' :: '`' :: '`' :: '\n' :: (b.data ++ ['\n', '`', '`'])) ++
          ['`'] := by
      rw [hdata]
      simp
    have htrim : jsTrim ("```\n" ++ b ++ "\n```") =
        "```\n" ++ b ++ "\n```" := by
      show (⟨jsTrimL ("```\n" ++ b ++ "\n```").data⟩ : String) = _
      unfold jsTrimL
      rw [hdata, jsTrimLeftL_cons_nonws _ _ (by decide), ← hdata, hRform,
        jsTrimRightL_append_nonws _ _ (by decide), ← hRform]
    have hjson : jsStartsWith ("```\n" ++ b ++ "\n```") "```json" =
        false := by
      unfold jsStartsWith
      rw [hdata]
      have hjn : ('j' == '\n') = false := by decide
      simp [List.isPrefixOf, hjn]
    have hstarts : jsStartsWith ("```\n" ++ b ++ "\n```") "```" = true := by
      unfold jsStartsWith
      rw [List.isPrefixOf_iff_prefix]
      exact ⟨'\n' :: (b.data ++ ['\n', '`', '`', '`']), by rw [hdata]; rfl⟩
    have hdrop : ("```\n" ++ b ++ "\n```").data.drop 3 =
        '\n' :: (b.data ++ ['\n', '`', '`', '`']) := by
      rw [hdata]
      rfl
    have hstrip : jsTrimLeftL (("```\n" ++ b ++ "\n```").data.drop 3) =
        jsTrimLeftL (b.data ++ ['\n', '`', '`', '`']) := by
      rw [hdrop, jsTrimLeftL_cons_ws _ _ (by decide)]
    unfold cleanResponseText
    simp only [htrim, hjson, hstarts, if_true, Bool.false_eq_true, if_false,
      hstrip]
    cases hA : jsTrimLeftL b.data with
    | nil =>
      have hc1 : jsTrimLeftL (b.data ++ ['\n', '`', '`', '`']) =
          ['`', '`', '`'] := by
        show (b.data ++ ['\n', '`', '`', '`']).dropWhile jsWhitespaceChar = _
        rw [List.dropWhile_append]
        have h1' : (b.data.dropWhile jsWhitespaceChar).isEmpty = true := by
          show (jsTrimLeftL b.data).isEmpty = true
          rw [hA]
          rfl
        rw [if_pos h1']
        rfl
      rw [hc1]
      have hbtrim : jsTrim b = "" := by
        show (⟨jsTrimL b.data⟩ : String) = ""
        unfold jsTrimL
        rw [hA]
        rfl
      rw [hbtrim]
      rfl
    | cons a t' =>
      have hc1 : jsTrimLeftL (b.data ++ ['\n', '`', '`', '`']) =
          (a :: t') ++ ['\n', '`', '`', '`'] := by
        show (b.data ++ ['\n', '`', '`', '`']).dropWhile jsWhitespaceChar = _
        rw [List.dropWhile_append]
        have h1' : (b.data.dropWhile jsWhitespaceChar).isEmpty = false := by
          show (jsTrimLeftL b.data).isEmpty = false
          rw [hA]
          rfl
        rw [h1']
        show (jsTrimLeftL b.data) ++ _ = _
        rw [hA]
      rw [hc1]
      have hend : jsEndsWith ⟨(a :: t') ++ ['\n', '`', '`', '`']⟩ "```" =
          true := by
        unfold jsEndsWith
        rw [List.isSuffixOf_iff_suffix]
        show ['`', '`', '`'] <:+ (a :: t') ++ ['\n', '`', '`', '`']
        exact List.IsSuffix.trans ⟨['\n'], rfl⟩ (List.suffix_append _ _)
      simp only [hend, if_true]
      have htake : ((⟨(a :: t') ++ ['\n', '`', '`', '`']⟩ : String)).data.take
          (((⟨(a :: t') ++ ['\n', '`', '`', '`']⟩ : String)).data.length - 3) =
          (a :: t') ++ ['\n'] := by
        show ((a :: t') ++ ['\n', '`', '`', '`']).take
          (((a :: t') ++ ['\n', '`', '`', '`']).length - 3) = (a :: t') ++ ['\n']
        have hlen : ((a :: t') ++ ['\n', '`', '`', '`']).length - 3 =
            ((a :: t') ++ ['\n']).length := by
          simp only [List.length_append, List.length_cons, List.length_nil]
          omega
        have hform : (a :: t') ++ ['\n', '`', '`', '`'] =
            ((a :: t') ++ ['\n']) ++ ['`', '`', '`'] := by simp
        rw [hlen, hform, List.take_left]
      rw [htake]
      have hR1 : jsTrimRightL ((a :: t') ++ ['\n']) = jsTrimRightL (a :: t') :=
        jsTrimRightL_append_ws _ _ (by decide)
      rw [hR1, ← hA]
      exact jsTrim_idem b

/-- C6 witness. -/
theorem cleanResponseText_fences_witness :
    cleanResponseText "plain text" = jsTrim "plain text" ∧
    cleanResponseText ("```json\n" ++ "hello" ++ "\n```") = jsTrim "hello" ∧
    cleanResponseText ("```\n" ++ "hello" ++ "\n```") = jsTrim "hello" :=
  cleanResponseText_fences "plain text" "hello" (by decide) (by decide)
    (by decide)

/-- C6 counterexample: a fence with a language tag other than `json`
does not yield the trimmed body: a `python` tag survives in the output,
and a `jsonc` tag has its literal `json` prefix eaten, leaving `c`
prefixed to the body — so the cleaner neither returns the trimmed body
nor merely removes the backticks for arbitrary language tags. -/
theorem cleanResponseText_keeps_other_tags :
    (cleanResponseText "```python\nhi\n```" = "python\nhi" ∧
      "python\nhi" ≠ "hi") ∧
    (cleanResponseText "```jsonc\nhi\n```" = "c\nhi" ∧
      "c\nhi" ≠ "hi" ∧ "c\nhi" ≠ "jsonc\nhi") := by
  refine ⟨⟨rfl, by decide⟩, rfl, by decide, by decide⟩

end GeminiProxy
